import Mathlib

/-!
Verification of the strfry NIP-05 gate plugin (`src/plugins/nip05_gate.py`).

The Python source is shallowly embedded below: pure functions become Lean
functions, the stateful subsystems (token-bucket rate limiter, LRU bucket
table, multi-source allowlist cache, per-request decision step) become
explicit state-passing functions.  Wall-clock times and token levels are
modelled as rationals (the Python code uses floats; all arithmetic involved
is exact on the values used), machine integers as `Int`/`Nat`.
-/

namespace Nip05Gate

/-! ### Token bucket (class `TokenBucket`, lines 257-273) -/

structure TokenBucket where
  capacity : ℕ
  refill_per_second : ℚ
  tokens : ℚ
  last_ts : ℚ
  deriving Repr, DecidableEq

/-- `TokenBucket.__init__`: `capacity = max(1, int(capacity))`,
`refill_per_second = max(0.01, float(refill_per_second))`, bucket starts
full, `last_ts = time.time()` (passed in as `now`). -/
def TokenBucket.init (capacity : ℤ) (refill_per_second : ℚ) (now : ℚ) : TokenBucket :=
  let cap := (max 1 capacity).toNat
  { capacity := cap
    refill_per_second := max (1/100) refill_per_second
    tokens := (cap : ℚ)
    last_ts := now }

/-- `TokenBucket.allow(now)`: refill by `elapsed * rate` (clamped to capacity,
skipped when `elapsed` is zero, matching `if elapsed:`), update `last_ts`,
then consume one token when the level is at least 1. -/
def TokenBucket.allow (b : TokenBucket) (now : ℚ) : Bool × TokenBucket :=
  let elapsed := max 0 (now - b.last_ts)
  let tokens :=
    if elapsed ≠ 0 then min (b.capacity : ℚ) (b.tokens + elapsed * b.refill_per_second)
    else b.tokens
  if 1 ≤ tokens then (true, { b with tokens := tokens - 1, last_ts := now })
  else (false, { b with tokens := tokens, last_ts := now })

/-- State of the bucket after `n` consecutive `allow` calls, all at time `now`. -/
def TokenBucket.consumeN (b : TokenBucket) (now : ℚ) : ℕ → TokenBucket
  | 0 => b
  | n + 1 => ((b.consumeN now n).allow now).2

/-- Outcome of the `k`-th (1-indexed) of a run of consecutive `allow` calls at
time `now`. -/
def TokenBucket.nthAllowed (b : TokenBucket) (now : ℚ) (k : ℕ) : Bool :=
  ((b.consumeN now (k - 1)).allow now).1

/-- A check at a strictly later (or equal) time behaves exactly like a check,
at that same time, on the bucket whose level has already been refilled. -/
def TokenBucket.refillAt (b : TokenBucket) (now : ℚ) : TokenBucket :=
  { b with
    tokens :=
      if max 0 (now - b.last_ts) ≠ 0 then
        min (b.capacity : ℚ) (b.tokens + max 0 (now - b.last_ts) * b.refill_per_second)
      else b.tokens
    last_ts := now }

/-! ### Ephemeral bucket table (`_ephemeral_buckets` / `_ephemeral_get_or_create`,
lines 276-302).  The `OrderedDict` is modelled as an association list in
recency order: head = least recently touched, tail end = most recent. -/

def bucketKeys (tbl : List (String × TokenBucket)) : List String := tbl.map Prod.fst

/-- `_ephemeral_get_or_create(pubkey, capacity, rate, max_buckets)`:
look up the bucket; on a hit, `move_to_end` (LRU touch); on a miss, create
a full bucket, insert at the end, and if the table now exceeds
`max_buckets`, `popitem(last=False)` evicts the head (the LRU entry). -/
def ephemeralGetOrCreate (pubkey : String) (capacity : ℤ) (rate : ℚ) (maxBuckets : ℕ)
    (now : ℚ) (tbl : List (String × TokenBucket)) :
    TokenBucket × List (String × TokenBucket) :=
  match tbl.find? (fun e => e.1 == pubkey) with
  | some e =>
      (e.2, tbl.filter (fun e2 => e2.1 != pubkey) ++ [(pubkey, e.2)])
  | none =>
      let b := TokenBucket.init capacity rate now
      let tbl1 := tbl ++ [(pubkey, b)]
      (b, if maxBuckets < tbl1.length then tbl1.tail else tbl1)

/-- Repeatedly run `_ephemeral_get_or_create` for a list of identities. -/
def insertAllFrom (capacity : ℤ) (rate : ℚ) (maxBuckets : ℕ) (now : ℚ)
    (tbl : List (String × TokenBucket)) (pks : List String) :
    List (String × TokenBucket) :=
  pks.foldl (fun t pk => (ephemeralGetOrCreate pk capacity rate maxBuckets now t).2) tbl

/-! ### Multi-source allowlist cache (`Nip05MultiCache`, lines 91-254).

`_fetch_one` is modelled on an abstract HTTP result; the JSON-field
extraction of a well-formed body is abstracted to the resulting identity
set (no claim concerns the per-entry extraction, which is the subject of
the Identity Decoder section below). -/

/-- Abstract body of a 200 response: either malformed JSON (so
`json.loads` raises after the caching headers were captured) or a
well-formed document yielding the extracted identity set. -/
inductive BodyData where
  | malformed : BodyData
  | wellFormed : Finset String → BodyData
  deriving DecidableEq

/-- Abstract outcome of `urllib.request.urlopen` for one attempt: a network
error / timeout (an exception before any response), or a response with a
status code, caching headers, and a body. -/
inductive HttpResult where
  | networkError : HttpResult
  | response : ℕ → String → String → BodyData → HttpResult
  deriving DecidableEq

inductive FetchResult where
  | notModified : FetchResult
  | fetched : Finset String → FetchResult
  | failed : FetchResult
  deriving DecidableEq

/-- Per-source state: `_per_url_allowed[url]`, `_backoff_seconds[url]`,
`_next_retry_ts[url]`, `_etag_by_url[url]`, `_last_modified_by_url[url]`. -/
structure SourceState where
  url : String
  lastSet : Finset String
  backoff : ℚ
  nextRetry : ℚ
  etag : String
  lastMod : String
  deriving DecidableEq

/-- `Nip05MultiCache._fetch_one` (lines 111-170): 304 means not-modified
(both the early-return path and the `HTTPError` 304 path); any other
non-200 status or network error is a failure leaving state untouched; a
200 response first captures the `ETag` / `Last-Modified` headers (when
non-empty) and only then parses the body, so a malformed body is a failure
that has already updated the validators. -/
def fetch_one (resp : HttpResult) (st : SourceState) : SourceState × FetchResult :=
  match resp with
  | .networkError => (st, .failed)
  | .response status etagHdr lastModHdr body =>
    if status = 304 then (st, .notModified)
    else if status ≠ 200 then (st, .failed)
    else
      let st1 := { st with
        etag := if etagHdr ≠ "" then etagHdr else st.etag,
        lastMod := if lastModHdr ≠ "" then lastModHdr else st.lastMod }
      match body with
      | .malformed => (st1, .failed)
      | .wellFormed ids => (st1, .fetched ids)

structure CacheState where
  ttl_seconds : ℚ
  sources : List SourceState
  allowed : Finset String
  lastSuccessTs : ℚ
  deriving DecidableEq

/-- One iteration of the `for url in self.urls` loop of `_refresh_once`
(lines 176-207): skip a source whose retry deadline has not passed;
on success (304 or fresh data) reset backoff and schedule the next attempt
after the TTL, storing fresh data in the per-url set; on failure double
the backoff (floor 10, ceiling 300) and apply the jitter factor to the
retry delay.  The boolean records whether the source counted as a success. -/
def source_step (now ttl : ℚ) (resp : String → HttpResult) (jitter : String → ℚ)
    (src : SourceState) : SourceState × Bool :=
  if now < src.nextRetry then (src, false)
  else
    match fetch_one (resp src.url) src with
    | (st1, .notModified) => ({ st1 with backoff := 0, nextRetry := now + ttl }, true)
    | (st1, .fetched ids) =>
        ({ st1 with lastSet := ids, backoff := 0, nextRetry := now + ttl }, true)
    | (st1, .failed) =>
        let base := if st1.backoff ≤ 0 then (10 : ℚ) else min (st1.backoff * 2) 300
        ({ st1 with backoff := base, nextRetry := now + base * jitter src.url }, false)

/-- Number of sources that succeeded in this cycle (`successes` counter). -/
def cycle_successes (now : ℚ) (resp : String → HttpResult) (jitter : String → ℚ)
    (st : CacheState) : ℕ :=
  (st.sources.map (fun s => (source_step now st.ttl_seconds resp jitter s).2)).count true

/-- `Nip05MultiCache._refresh_once` (lines 172-223): process every source,
then rebuild the merged snapshot as the union of all per-source sets, and
publish it (and the last-success timestamp) only when at least one source
succeeded. -/
def refresh_once (now : ℚ) (resp : String → HttpResult) (jitter : String → ℚ)
    (st : CacheState) : CacheState :=
  let sources1 := st.sources.map (fun s => (source_step now st.ttl_seconds resp jitter s).1)
  let merged := sources1.foldl (fun a s => a ∪ s.lastSet) ∅
  if 0 < cycle_successes now resp jitter st then
    { st with sources := sources1, allowed := merged, lastSuccessTs := now }
  else { st with sources := sources1 }

/-- Two-source scenario of C3: source "a" succeeds with `{x, y}` while
source "b" fails with last-known set `{z}`. -/
def demoCacheState : CacheState :=
  { ttl_seconds := 300
    sources :=
      [ { url := "a", lastSet := ∅, backoff := 0, nextRetry := 0, etag := "", lastMod := "" },
        { url := "b", lastSet := {"z"}, backoff := 0, nextRetry := 0, etag := "", lastMod := "" } ]
    allowed := {"z"}
    lastSuccessTs := 50 }

def demoResp (u : String) : HttpResult :=
  if u = "a" then .response 200 "" "" (.wellFormed {"x", "y"}) else .networkError

def demoRespAllFail (_ : String) : HttpResult := .networkError

def demoJitter (_ : String) : ℚ := 1

/-- A concrete source state used by the C9 counterexample and witness. -/
def demoSource : SourceState :=
  { url := "u", lastSet := {"z"}, backoff := 0, nextRetry := 0, etag := "old", lastMod := "" }

/-! ### Decision engine (`main` request loop, lines 509-616, with the
helpers `should_bypass_source`, `parse_allowed_kinds`,
`should_allow_kind_without_nip05`, lines 408-439). -/

/-- ASCII whitespace stripped by Python `str.strip()`. -/
def pyWhitespace (c : Char) : Bool :=
  c == ' ' || c == '\t' || c == '\n' || c == '\r' || c == '\x0B' || c == '\x0C' ||
  c == '\x1C' || c == '\x1D' || c == '\x1E' || c == '\x1F'

def pyStripChars (l : List Char) : List Char :=
  ((l.dropWhile pyWhitespace).reverse.dropWhile pyWhitespace).reverse

def pyStrip (s : String) : String := ⟨pyStripChars s.data⟩

/-- Python `str.lower()` (ASCII range; the decision path only ever compares
the result against ASCII strings or the hex alphabet). -/
def pyToLower (s : String) : String := ⟨s.data.map Char.toLower⟩

/-- Python `str.split(",")` on the underlying character list. -/
def splitOnComma : List Char → List (List Char)
  | [] => [[]]
  | c :: rest =>
    let r := splitOnComma rest
    if c = ',' then [] :: r
    else
      match r with
      | [] => [[c]]
      | h :: t => (c :: h) :: t

/-- Python `int()` applied to an already-stripped string: optional sign
followed by decimal digits, else a `ValueError` (modelled as `none`). -/
def digitsVal? (l : List Char) : Option ℕ :=
  if l ≠ [] ∧ l.all Char.isDigit then
    some (l.foldl (fun a c => 10 * a + (c.toNat - 48)) 0)
  else none

def pyInt? (s : String) : Option ℤ :=
  match s.data with
  | '-' :: rest => (digitsVal? rest).map (fun n => -(n : ℤ))
  | '+' :: rest => (digitsVal? rest).map (fun n => (n : ℤ))
  | l => (digitsVal? l).map (fun n => (n : ℤ))

/-- `parse_allowed_kinds` (lines 414-431): split on commas, strip, parse
each non-empty part as an int; any parse failure yields the empty set. -/
def parse_allowed_kinds (s : String) : Finset ℤ :=
  if pyStrip s = "" then ∅
  else
    let parts := ((splitOnComma s.data).map (fun l => pyStrip ⟨l⟩)).filter (fun p => p != "")
    if parts.all (fun p => (pyInt? p).isSome) then (parts.filterMap pyInt?).toFinset
    else ∅

/-- `should_bypass_source` (lines 408-411). -/
def should_bypass_source (source_type : String) (allow_import_flag : String) : Bool :=
  if !(["1", "true", "yes", "y"].contains (pyToLower allow_import_flag)) then false
  else ["Import", "Sync", "Stream"].contains source_type

/-- `should_allow_kind_without_nip05` (lines 434-439). -/
def should_allow_kind_without_nip05 (kind : ℤ) (allowed_kinds : Finset ℤ) : Bool :=
  decide (kind ∈ allowed_kinds)

def isHexDigitLower (c : Char) : Bool := ("0123456789abcdef" : String).data.contains c

/-- The structural check of line 535:
`event_id and len(pubkey) == 64 and all(c in "0123456789abcdef" for c in pubkey)`
(applied to the already-lowercased pubkey). -/
def valid_structure (event_id pubkey_lower : String) : Bool :=
  event_id != "" && pubkey_lower.length == 64 && pubkey_lower.data.all isHexDigitLower

/-- The configuration surface consumed by the request loop
(`parse_args`, lines 323-390). -/
structure GateConfig where
  gate_mode : String
  allow_import : String
  eph_rate : ℚ
  eph_burst : ℤ
  eph_max_buckets : ℕ
  startup_grace_seconds : ℤ
  allowed_kinds : Finset ℤ

structure Event where
  id : String
  pubkey : String
  kind : Option ℤ

structure Request where
  event : Event
  sourceType : String

inductive Action where
  | accept : Action
  | reject : String → Action
  deriving DecidableEq, Repr

structure Decision where
  id : String
  action : Action
  deriving DecidableEq, Repr

/-- One iteration of the request loop (lines 527-616), for an already
JSON-parsed `{"type": "new"}` request: the event id defaults to `""`, the
pubkey is lowercased, a missing kind defaults to `0`; then the precedence
chain: structural validity, open gate mode, ephemeral rate limiting (which
writes the consumed bucket back through the shared table), source-type
bypass, kind bypass, startup grace, allowlist membership. -/
def decide_request (cfg : GateConfig) (allowedSnapshot : Finset String)
    (lastSuccessTs startupTs now : ℚ) (tbl : List (String × TokenBucket))
    (req : Request) : Decision × List (String × TokenBucket) :=
  let event_id := req.event.id
  let pubkey := pyToLower req.event.pubkey
  let kind := req.event.kind.getD 0
  if !(valid_structure event_id pubkey) then
    ({ id := event_id, action := .reject "blocked: invalid event or pubkey" }, tbl)
  else if pyToLower cfg.gate_mode == "open" then
    ({ id := event_id, action := .accept }, tbl)
  else if 20000 ≤ kind ∧ kind ≤ 29999 then
    let gc := ephemeralGetOrCreate pubkey cfg.eph_burst cfg.eph_rate cfg.eph_max_buckets now tbl
    let res := gc.1.allow now
    let tbl2 := gc.2.map (fun e => if e.1 == pubkey then (e.1, res.2) else e)
    if res.1 then ({ id := event_id, action := .accept }, tbl2)
    else ({ id := event_id, action := .reject "blocked: rate limited (ephemeral)" }, tbl2)
  else if should_bypass_source req.sourceType cfg.allow_import then
    ({ id := event_id, action := .accept }, tbl)
  else if should_allow_kind_without_nip05 kind cfg.allowed_kinds then
    ({ id := event_id, action := .accept }, tbl)
  else if 0 < cfg.startup_grace_seconds ∧ lastSuccessTs ≤ 0 ∧
      now - startupTs < (cfg.startup_grace_seconds : ℚ) then
    ({ id := event_id, action := .accept }, tbl)
  else if pubkey ∈ allowedSnapshot then
    ({ id := event_id, action := .accept }, tbl)
  else
    ({ id := event_id, action := .reject "blocked: pubkey not in allowed NIP-05 list" }, tbl)

/-- The default configuration from `parse_args` (environment unset). -/
def defaultGateConfig : GateConfig :=
  { gate_mode := "nip05"
    allow_import := "false"
    eph_rate := 2
    eph_burst := 10
    eph_max_buckets := 10000
    startup_grace_seconds := 0
    allowed_kinds := parse_allowed_kinds "0,3,5,7,9734,9735,10002,22242" }

/-- The spec's phrase "the identity is exactly 64 lowercase-hex characters",
read on the raw request identity. -/
def spec_identity_64_lowercase_hex (s : String) : Bool :=
  s.length == 64 && s.data.all isHexDigitLower

/-- Bypass-relevant configuration fields, varied in the C2 independence
statement. -/
def withBypassCfg (cfg : GateConfig) (ai : String) (ak : Finset ℤ) (g : ℤ) : GateConfig :=
  { cfg with allow_import := ai, allowed_kinds := ak, startup_grace_seconds := g }

/-! ### Identity decoder (`bech32_polymod`, `bech32_hrp_expand`,
`bech32_decode`, `convertbits`, `npub_to_hex`, lines 22-88).

Strings are processed as character lists (Lean's `String.toLower` /
`String.contains` use well-founded recursion, which the kernel cannot
evaluate; the list versions below are their transparent equivalents). -/

def bech32_charset : List Char := "qpzry9x8gf2tvdw0s3jn54khce6mua7l".data

/-- `charset.index(x)`, returning `none` for the `ValueError` case. -/
def charsetIndex? (c : Char) : Option ℕ := bech32_charset.findIdx? (fun x => x == c)

/-- `[charset.index(x) for x in data_part]` with `ValueError` as `none`. -/
def mapCharset : List Char → Option (List ℕ)
  | [] => some []
  | c :: rest =>
    match charsetIndex? c, mapCharset rest with
    | some i, some l => some (i :: l)
    | _, _ => none

/-- The inner `for i in range(5): chk ^= generator[i] if ((b >> i) & 1) else 0`. -/
def genXor (b : ℕ) : ℕ :=
  (if b.testBit 0 then 0x3b6a57b2 else 0) ^^^
  (if b.testBit 1 then 0x26508e6d else 0) ^^^
  (if b.testBit 2 then 0x1ea119fa else 0) ^^^
  (if b.testBit 3 then 0x3d4233dd else 0) ^^^
  (if b.testBit 4 then 0x2a1462b3 else 0)

/-- One iteration of the `for v in values` loop of `bech32_polymod`:
`b = chk >> 25; chk = (chk & 0x1ffffff) << 5 ^ v; chk ^= generators(b)`. -/
def bech32_step (chk v : ℕ) : ℕ :=
  ((chk &&& 0x1ffffff) <<< 5) ^^^ v ^^^ genXor (chk >>> 25)

def bech32_polymod (values : List ℕ) : ℕ := values.foldl bech32_step 1

def bech32_hrp_expand (hrp : List Char) : List ℕ :=
  hrp.map (fun x => x.toNat >>> 5) ++ [0] ++ hrp.map (fun x => x.toNat &&& 31)

/-- `bech32_decode` (lines 37-56): strip, reject non-printable characters
and mixed case, lowercase, split at the last "1", map the data part
through the charset, check the polymod residue, strip the 6 checksum
symbols. -/
def bech32_decode (s : List Char) : String × List ℕ :=
  let bech0 := pyStripChars s
  if bech0.any (fun x => x.toNat < 33 || 126 < x.toNat) then ("", [])
  else if bech0.map Char.toLower ≠ bech0 ∧ bech0.map Char.toUpper ≠ bech0 then ("", [])
  else
    let bech := bech0.map Char.toLower
    match bech.reverse.findIdx? (fun c => c == '1') with
    | none => ("", [])
    | some j =>
      let pos := bech.length - 1 - j
      if pos < 1 ∨ bech.length < pos + 7 then ("", [])
      else
        let hrp := bech.take pos
        let dataPart := bech.drop (pos + 1)
        match mapCharset dataPart with
        | none => ("", [])
        | some data =>
          if bech32_polymod (bech32_hrp_expand hrp ++ data) = 1 then
            (⟨hrp⟩, data.take (data.length - 6))
          else ("", [])

/-- The `while bits >= tobits` loop of `convertbits`, with a structural
fuel argument (each iteration removes `tobits ≥ 1` bits, so `fuel = bits`
always suffices at the call site). -/
def emitLoopFuel (tobits maxv acc : ℕ) : ℕ → ℕ → List ℕ × ℕ
  | 0, bits => ([], bits)
  | fuel + 1, bits =>
    if tobits ≤ bits then
      let bits2 := bits - tobits
      let rest := emitLoopFuel tobits maxv acc fuel bits2
      (((acc >>> bits2) &&& maxv) :: rest.1, rest.2)
    else ([], bits)

def emitLoop (tobits maxv acc bits : ℕ) : List ℕ × ℕ :=
  emitLoopFuel tobits maxv acc bits bits

/-- The `for value in data` loop of `convertbits`: returns the emitted
groups together with the final `acc` and `bits`, or `none` for the
`value >> frombits` early failure. -/
def convertLoop (frombits tobits maxv max_acc : ℕ) :
    List ℕ → ℕ → ℕ → Option (List ℕ × ℕ × ℕ)
  | [], acc, bits => some ([], acc, bits)
  | v :: rest, acc, bits =>
    if v >>> frombits ≠ 0 then none
    else
      let acc2 := ((acc <<< frombits) ||| v) &&& max_acc
      let er := emitLoop tobits maxv acc2 (bits + frombits)
      match convertLoop frombits tobits maxv max_acc rest acc2 er.2 with
      | none => none
      | some (tl, accF, bitsF) => some (er.1 ++ tl, accF, bitsF)

/-- `convertbits` (lines 59-78); failure is the empty list, as in the
Python `return b""`. -/
def convertbits (data : List ℕ) (frombits tobits : ℕ) (pad : Bool) : List ℕ :=
  let maxv := (1 <<< tobits) - 1
  let max_acc := (1 <<< (frombits + tobits - 1)) - 1
  match convertLoop frombits tobits maxv max_acc data 0 0 with
  | none => []
  | some (ret, acc, bits) =>
    if pad then
      if bits ≠ 0 then ret ++ [(acc <<< (tobits - bits)) &&& maxv] else ret
    else if frombits ≤ bits ∨ ((acc <<< (tobits - bits)) &&& maxv) ≠ 0 then []
    else ret

def hexDigitChars : List Char := "0123456789abcdef".data

/-- Two lowercase hex digits of one byte. -/
def byteHexPair (b : ℕ) : List Char :=
  [hexDigitChars.getD (b / 16) '0', hexDigitChars.getD (b % 16) '0']

/-- `bytes.hex()`: two lowercase hex digits per byte. -/
def bytesToHex (l : List ℕ) : String := ⟨(l.map byteHexPair).flatten⟩

/-- `npub_to_hex` (lines 81-88). -/
def npub_to_hex (npub : String) : String :=
  let hd := bech32_decode npub.data
  if hd.1 ≠ "npub" ∨ hd.2 = [] then ""
  else
    let eight_bit := convertbits hd.2 5 8 false
    if eight_bit = [] ∨ eight_bit.length ≠ 32 then ""
    else bytesToHex eight_bit

/-- The encoding of the all-zero 32-byte identity. -/
def npubZero : String :=
  "npub1qqqqqqqqqqqqqqqqqqqqqqqqqqqqqqqqqqqqqqqqqqqqqqqqqqqqzqujme"

/-! ### Lemmas and claim theorems -/
lemma TokenBucket.allow_at_last_ts (b : TokenBucket) (now : ℚ) (h : b.last_ts = now) :
    b.allow now =
      if 1 ≤ b.tokens then (true, { b with tokens := b.tokens - 1, last_ts := now })
      else (false, { b with last_ts := now }) := by
  simp [TokenBucket.allow, h]

/-- Behaviour of a run of same-instant checks starting from token level `x`:
after `n` checks the level is `x - min n ⌊x⌋` and the timestamp is unchanged. -/
lemma TokenBucket.consumeN_const (now x : ℚ) (hx : 0 ≤ x) :
    ∀ (n : ℕ) (b : TokenBucket), b.last_ts = now → b.tokens = x →
      (b.consumeN now n).last_ts = now ∧
      (b.consumeN now n).tokens = x - min (n : ℚ) (⌊x⌋ : ℚ) ∧
      (b.consumeN now n).capacity = b.capacity ∧
      (b.consumeN now n).refill_per_second = b.refill_per_second := by
  intro n
  induction n with
  | zero =>
    intro b hts htk
    have h0 : min (0 : ℚ) (⌊x⌋ : ℚ) = 0 := by
      have : (0 : ℚ) ≤ (⌊x⌋ : ℚ) := by exact_mod_cast Int.floor_nonneg.mpr hx
      simp [min_eq_left this]
    simpa [TokenBucket.consumeN, h0] using ⟨hts, htk⟩
  | succ n ih =>
    intro b hts htk
    obtain ⟨h1, h2, h3, h4⟩ := ih b hts htk
    have hfl : (⌊x⌋ : ℚ) ≤ x := Int.floor_le x
    have hxlt : x < (⌊x⌋ : ℚ) + 1 := Int.lt_floor_add_one x
    rw [TokenBucket.consumeN, TokenBucket.allow_at_last_ts _ _ h1]
    by_cases hcase : ((n : ℚ)) < (⌊x⌋ : ℚ)
    · -- another token is available: `x - n ≥ 1`
      have hmin : min ((n : ℚ)) (⌊x⌋ : ℚ) = (n : ℚ) := min_eq_left (le_of_lt hcase)
      have hn1 : ((n : ℚ)) + 1 ≤ (⌊x⌋ : ℚ) := by
        have : ((n : ℤ)) < ⌊x⌋ := by exact_mod_cast hcase
        exact_mod_cast this
      have hge : 1 ≤ (b.consumeN now n).tokens := by
        rw [h2, hmin]; linarith
      have hmin2 : min ((n : ℚ) + 1) (⌊x⌋ : ℚ) = (n : ℚ) + 1 := min_eq_left hn1
      simp only [if_pos hge]
      refine ⟨by simp, ?_, by simp [h3], by simp [h4]⟩
      simp only [h2, hmin, Nat.cast_add, Nat.cast_one, hmin2]
      ring
    · -- tokens exhausted: level is `x - ⌊x⌋ < 1`
      push_neg at hcase
      have hmin : min ((n : ℚ)) (⌊x⌋ : ℚ) = (⌊x⌋ : ℚ) := min_eq_right hcase
      have hlt : ¬ (1 ≤ (b.consumeN now n).tokens) := by
        rw [h2, hmin]; linarith
      have hmin2 : min ((n : ℚ) + 1) (⌊x⌋ : ℚ) = (⌊x⌋ : ℚ) := by
        refine min_eq_right ?_
        linarith
      simp only [if_neg hlt]
      refine ⟨by simp, ?_, by simp [h3], by simp [h4]⟩
      simp only [h2, hmin, Nat.cast_add, Nat.cast_one, hmin2]

/-- The `k`-th same-instant check (1-indexed) succeeds exactly when
`k ≤ ⌊x⌋`, for a bucket at level `x` whose timestamp equals `now`. -/
lemma TokenBucket.nthAllowed_const (now x : ℚ) (hx : 0 ≤ x) (b : TokenBucket)
    (hts : b.last_ts = now) (htk : b.tokens = x) (k : ℕ) (hk : 1 ≤ k) :
    b.nthAllowed now k = decide ((k : ℤ) ≤ ⌊x⌋) := by
  obtain ⟨m, rfl⟩ : ∃ m, k = m + 1 := ⟨k - 1, (Nat.succ_pred_eq_of_pos hk).symm⟩
  obtain ⟨h1, h2, _, _⟩ := TokenBucket.consumeN_const now x hx m b hts htk
  have hk1 : m + 1 - 1 = m := rfl
  rw [TokenBucket.nthAllowed, hk1, TokenBucket.allow_at_last_ts _ _ h1]
  have hfl : (⌊x⌋ : ℚ) ≤ x := Int.floor_le x
  have hxlt : x < (⌊x⌋ : ℚ) + 1 := Int.lt_floor_add_one x
  by_cases hcase : ((m : ℤ) + 1) ≤ ⌊x⌋
  · have hmlt : ((m : ℚ)) < (⌊x⌋ : ℚ) := by
      have : ((m : ℤ)) < ⌊x⌋ := by omega
      exact_mod_cast this
    have hmin : min ((m : ℚ)) (⌊x⌋ : ℚ) = (m : ℚ) := min_eq_left (le_of_lt hmlt)
    have hq : ((m : ℚ)) + 1 ≤ (⌊x⌋ : ℚ) := by exact_mod_cast hcase
    have hge : 1 ≤ (b.consumeN now m).tokens := by
      rw [h2, hmin]; linarith
    have hcast : ((m : ℤ) + 1 ≤ ⌊x⌋) = (((m + 1 : ℕ) : ℤ) ≤ ⌊x⌋) := by push_cast; rfl
    simp only [if_pos hge]
    simp [← hcast, hcase]
  · have hgt : (⌊x⌋ : ℚ) < (m : ℚ) + 1 := by
      have : ⌊x⌋ < (m : ℤ) + 1 := by omega
      exact_mod_cast this
    have hfl0 : (0 : ℤ) ≤ ⌊x⌋ := Int.floor_nonneg.mpr hx
    have hmin : min ((m : ℚ)) (⌊x⌋ : ℚ) = (⌊x⌋ : ℚ) := by
      refine min_eq_right ?_
      have : (⌊x⌋ : ℤ) ≤ (m : ℤ) := by omega
      exact_mod_cast this
    have hlt : ¬ (1 ≤ (b.consumeN now m).tokens) := by
      rw [h2, hmin]; linarith
    have hcast : ((m : ℤ) + 1 ≤ ⌊x⌋) = (((m + 1 : ℕ) : ℤ) ≤ ⌊x⌋) := by push_cast; rfl
    simp only [if_neg hlt]
    simp [← hcast, hcase]

lemma TokenBucket.allow_eq_refillAt (b : TokenBucket) (now : ℚ) :
    b.allow now = (b.refillAt now).allow now := by
  simp only [TokenBucket.allow, TokenBucket.refillAt]
  simp

lemma TokenBucket.consumeN_eq_refillAt (b : TokenBucket) (now : ℚ) (n : ℕ) (hn : 1 ≤ n) :
    b.consumeN now n = (b.refillAt now).consumeN now n := by
  induction n with
  | zero => omega
  | succ n ih =>
    by_cases h : 1 ≤ n
    · simp only [TokenBucket.consumeN, ih h]
    · have : n = 0 := by omega
      subst this
      simp only [TokenBucket.consumeN, TokenBucket.allow_eq_refillAt b now]

lemma TokenBucket.nthAllowed_eq_refillAt (b : TokenBucket) (now : ℚ) (k : ℕ) (hk : 1 ≤ k) :
    b.nthAllowed now k = (b.refillAt now).nthAllowed now k := by
  unfold TokenBucket.nthAllowed
  by_cases h : 1 ≤ k - 1
  · rw [TokenBucket.consumeN_eq_refillAt b now _ h]
  · have : k = 1 := by omega
    subst this
    simp only [TokenBucket.consumeN]
    rw [TokenBucket.allow_eq_refillAt b now]

/-- **C5.**  A bucket built with capacity `C ≥ 1` and rate `R ≥ 0.01` (the
regime where the constructor's clamps are inactive) starts full: the first
`C` checks at the creation instant all allow and the `(C+1)`-th denies;
after then waiting `T ≥ 0` seconds, the `k`-th further immediate check
allows exactly when `k ≤ ⌊min C (T·R)⌋`, i.e. exactly
`⌊min C (T·R)⌋` further consecutive immediate checks return allow. -/
theorem tokenBucket_burst_then_refill (C : ℤ) (R t0 T : ℚ)
    (hC : 1 ≤ C) (hR : 1/100 ≤ R) (hT : 0 ≤ T) :
    (∀ k : ℕ, 1 ≤ k → (k : ℤ) ≤ C → (TokenBucket.init C R t0).nthAllowed t0 k = true) ∧
    ((TokenBucket.init C R t0).nthAllowed t0 (C.toNat + 1) = false) ∧
    (∀ k : ℕ, 1 ≤ k →
      (((TokenBucket.init C R t0).consumeN t0 (C.toNat + 1)).nthAllowed (t0 + T) k =
        decide ((k : ℤ) ≤ ⌊min (C : ℚ) (T * R)⌋))) := by
  set b0 := TokenBucket.init C R t0 with hb0
  have hcap : b0.capacity = C.toNat := by
    rw [hb0]
    show (max 1 C).toNat = C.toNat
    rw [max_eq_right hC]
  have htn : ((C.toNat : ℕ) : ℚ) = (C : ℚ) := by
    exact_mod_cast Int.toNat_of_nonneg (show (0 : ℤ) ≤ C by omega)
  have hcapQ : (b0.capacity : ℚ) = (C : ℚ) := by rw [hcap]; exact htn
  have htok : b0.tokens = (C : ℚ) := by
    rw [hb0]
    show (((max 1 C).toNat : ℕ) : ℚ) = (C : ℚ)
    rw [max_eq_right hC]
    exact htn
  have hts : b0.last_ts = t0 := rfl
  have hrate : b0.refill_per_second = R := by
    rw [hb0]
    show max (1/100) R = R
    exact max_eq_right hR
  have hCQ : (0 : ℚ) ≤ (C : ℚ) := by exact_mod_cast (by omega : (0:ℤ) ≤ C)
  have hflC : ⌊(C : ℚ)⌋ = C := Int.floor_intCast C
  refine ⟨?_, ?_, ?_⟩
  · intro k hk1 hkC
    rw [TokenBucket.nthAllowed_const t0 (C : ℚ) hCQ b0 hts htok k hk1]
    simp [hflC, hkC]
  · rw [TokenBucket.nthAllowed_const t0 (C : ℚ) hCQ b0 hts htok (C.toNat + 1) (by omega)]
    simp only [hflC, decide_eq_false_iff_not]
    push_cast
    omega
  · intro k hk
    -- after `C+1` checks at `t0` the bucket is empty with timestamp `t0`
    obtain ⟨hl1, hl2, hl3, hl4⟩ :=
      TokenBucket.consumeN_const t0 (C : ℚ) hCQ (C.toNat + 1) b0 hts htok
    set b1 := b0.consumeN t0 (C.toNat + 1) with hb1
    have hCn : ((C.toNat + 1 : ℕ) : ℚ) = (C : ℚ) + 1 := by
      push_cast [htn]
      ring
    have hb1tok : b1.tokens = 0 := by
      rw [hl2, hflC, hCn]
      have : min ((C : ℚ) + 1) (C : ℚ) = (C : ℚ) := min_eq_right (by linarith)
      rw [this]; ring
    -- the refilled level at `t0 + T` is `min C (T·R)`
    have hRpos : (0 : ℚ) < R := lt_of_lt_of_le (by norm_num) hR
    have hlevel : (b1.refillAt (t0 + T)).tokens = min (C : ℚ) (T * R) := by
      simp only [TokenBucket.refillAt, hl1, hb1tok, hl3, hl4, hcapQ, hrate]
      have helapsed : max 0 (t0 + T - t0) = T := by
        rw [max_eq_right]; ring_nf; linarith
      rw [helapsed]
      by_cases hT0 : T = 0
      · simp [hT0, min_eq_right hCQ]
      · simp [hT0, zero_add]
    have hlev_nonneg : (0 : ℚ) ≤ min (C : ℚ) (T * R) :=
      le_min hCQ (mul_nonneg hT (le_of_lt hRpos))
    rw [TokenBucket.nthAllowed_eq_refillAt b1 (t0 + T) k hk]
    exact TokenBucket.nthAllowed_const (t0 + T) (min (C : ℚ) (T * R)) hlev_nonneg
      (b1.refillAt (t0 + T)) rfl hlevel k hk

/-- Witness for C5 at `C = 2`, `R = 1`, `t0 = 0`, `T = 3/2`:
checks 1 and 2 allow, check 3 denies, and after waiting `3/2` seconds
exactly `⌊min 2 (3/2)⌋ = 1` further check allows. -/
theorem tokenBucket_burst_then_refill_witness :
    (TokenBucket.init 2 1 0).nthAllowed 0 1 = true ∧
    (TokenBucket.init 2 1 0).nthAllowed 0 2 = true ∧
    (TokenBucket.init 2 1 0).nthAllowed 0 3 = false ∧
    ((TokenBucket.init 2 1 0).consumeN 0 3).nthAllowed (0 + 3/2) 1 = true ∧
    ((TokenBucket.init 2 1 0).consumeN 0 3).nthAllowed (0 + 3/2) 2 = false := by
  obtain ⟨h1, h2, h3⟩ := tokenBucket_burst_then_refill 2 1 0 (3/2)
    (by norm_num) (by norm_num) (by norm_num)
  refine ⟨h1 1 (by norm_num) (by norm_num), h1 2 (by norm_num) (by norm_num), h2, ?_, ?_⟩
  · refine (h3 1 (by norm_num)).trans ?_
    norm_num [min_def]
  · refine (h3 2 (by norm_num)).trans ?_
    norm_num [min_def]

lemma find?_eq_none_of_not_mem_keys (pk : String) (tbl : List (String × TokenBucket))
    (h : pk ∉ bucketKeys tbl) : tbl.find? (fun e => e.1 == pk) = none := by
  rw [List.find?_eq_none]
  intro e he
  simp only [beq_iff_eq]
  intro hpk
  exact h (by simpa [bucketKeys, hpk] using List.mem_map_of_mem Prod.fst he)

lemma ephemeralGetOrCreate_fresh (pk : String) (capacity : ℤ) (rate : ℚ)
    (maxBuckets : ℕ) (now : ℚ) (tbl : List (String × TokenBucket))
    (h : pk ∉ bucketKeys tbl) :
    ephemeralGetOrCreate pk capacity rate maxBuckets now tbl =
      (TokenBucket.init capacity rate now,
        if maxBuckets < tbl.length + 1 then (tbl ++ [(pk, TokenBucket.init capacity rate now)]).tail
        else tbl ++ [(pk, TokenBucket.init capacity rate now)]) := by
  simp [ephemeralGetOrCreate, find?_eq_none_of_not_mem_keys pk tbl h]

/-- As long as the bound is not reached, successive fresh inserts append. -/
lemma insertAllFrom_no_evict (capacity : ℤ) (rate : ℚ) (maxBuckets : ℕ) (now : ℚ) :
    ∀ (pks : List String) (tbl : List (String × TokenBucket)),
      (bucketKeys tbl ++ pks).Nodup → tbl.length + pks.length ≤ maxBuckets →
      insertAllFrom capacity rate maxBuckets now tbl pks =
        tbl ++ pks.map (fun pk => (pk, TokenBucket.init capacity rate now)) := by
  intro pks
  induction pks with
  | nil => intro tbl _ _; simp [insertAllFrom]
  | cons pk rest ih =>
    intro tbl hnd hlen
    have hfresh : pk ∉ bucketKeys tbl := by
      rcases List.nodup_append.mp hnd with ⟨_, _, hdisj⟩
      intro hmem
      exact hdisj hmem (by simp)
    have hnoev : ¬ (maxBuckets < tbl.length + 1) := by
      simp only [List.length_cons] at hlen
      omega
    have hstep : (ephemeralGetOrCreate pk capacity rate maxBuckets now tbl).2 =
        tbl ++ [(pk, TokenBucket.init capacity rate now)] := by
      rw [ephemeralGetOrCreate_fresh pk capacity rate maxBuckets now tbl hfresh]
      simp [hnoev]
    have hkeys : bucketKeys (tbl ++ [(pk, TokenBucket.init capacity rate now)]) =
        bucketKeys tbl ++ [pk] := by
      simp [bucketKeys]
    have hnd2 : (bucketKeys (tbl ++ [(pk, TokenBucket.init capacity rate now)]) ++ rest).Nodup := by
      rw [hkeys, List.append_assoc]
      simpa using hnd
    have hlen2 : (tbl ++ [(pk, TokenBucket.init capacity rate now)]).length + rest.length
        ≤ maxBuckets := by
      simp only [List.length_append, List.length_cons, List.length_nil] at hlen ⊢
      omega
    have key : insertAllFrom capacity rate maxBuckets now tbl (pk :: rest) =
        insertAllFrom capacity rate maxBuckets now
          (tbl ++ [(pk, TokenBucket.init capacity rate now)]) rest := by
      simp only [insertAllFrom, List.foldl_cons]
      rw [hstep]
    rw [key, ih _ hnd2 hlen2]
    simp

lemma length_filter_ne_keys (pk : String) :
    ∀ (tbl : List (String × TokenBucket)), (bucketKeys tbl).Nodup → pk ∈ bucketKeys tbl →
      (tbl.filter (fun e2 => e2.1 != pk)).length = tbl.length - 1 := by
  intro tbl
  induction tbl with
  | nil => intro _ h; simp [bucketKeys] at h
  | cons e rest ih =>
    intro hnd hmem
    simp only [bucketKeys, List.map_cons, List.nodup_cons] at hnd
    by_cases hcase : e.1 = pk
    · have hall : ∀ e2 ∈ rest, (e2.1 != pk) = true := by
        intro e2 he2
        simp only [bne_iff_ne, ne_eq]
        intro hcontra
        apply hnd.1
        rw [hcase, ← hcontra]
        exact List.mem_map_of_mem Prod.fst he2
      rw [List.filter_cons_of_neg (by simp [hcase])]
      rw [List.filter_eq_self.mpr hall]
      simp
    · have hmem2 : pk ∈ bucketKeys rest := by
        simp only [bucketKeys, List.map_cons, List.mem_cons] at hmem
        rcases hmem with h | h
        · exact absurd h.symm hcase
        · exact h
      have hlen := ih hnd.2 hmem2
      rw [List.filter_cons_of_pos (by simp [hcase])]
      have hpos : 0 < rest.length := by
        rcases rest with _ | ⟨f, r⟩
        · simp [bucketKeys] at hmem2
        · simp
      simp only [List.length_cons, hlen]
      omega

lemma bucketKeys_tail (tbl : List (String × TokenBucket)) :
    bucketKeys tbl.tail = (bucketKeys tbl).tail := by
  rcases tbl with _ | ⟨e, rest⟩ <;> simp [bucketKeys]

lemma bucketKeys_map (pks : List String) (capacity : ℤ) (rate : ℚ) (now : ℚ) :
    bucketKeys (pks.map (fun pk => (pk, TokenBucket.init capacity rate now))) = pks := by
  induction pks with
  | nil => rfl
  | cons p r ih =>
    simp only [bucketKeys, List.map_cons] at ih ⊢
    rw [ih]

/-- **C6.**  (1) A get-or-create step never grows the table past the bound;
(2) inserting `max+1` distinct identities into an empty table evicts exactly
the first-inserted (least-recently-touched) one; (3) touching an existing
entry moves it to the most-recent end, so a subsequent overflowing insert
evicts some other entry and the touched one survives with the size bound
intact. -/
theorem ephemeral_lru_bound_and_eviction :
    (∀ (pk : String) (capacity : ℤ) (rate : ℚ) (maxBuckets : ℕ) (now : ℚ)
       (tbl : List (String × TokenBucket)), tbl.length ≤ maxBuckets →
       ((ephemeralGetOrCreate pk capacity rate maxBuckets now tbl).2).length ≤ maxBuckets) ∧
    (∀ (capacity : ℤ) (rate : ℚ) (maxBuckets : ℕ) (now : ℚ) (pks : List String),
       pks.Nodup → pks.length = maxBuckets + 1 →
       bucketKeys (insertAllFrom capacity rate maxBuckets now [] pks) = pks.drop 1) ∧
    (∀ (capacity : ℤ) (rate : ℚ) (maxBuckets : ℕ) (now : ℚ)
       (tbl : List (String × TokenBucket)) (pk q : String),
       (bucketKeys tbl).Nodup → pk ∈ bucketKeys tbl → q ∉ bucketKeys tbl →
       2 ≤ tbl.length → tbl.length = maxBuckets →
       pk ∈ bucketKeys ((ephemeralGetOrCreate q capacity rate maxBuckets now
         ((ephemeralGetOrCreate pk capacity rate maxBuckets now tbl).2)).2) ∧
       ((ephemeralGetOrCreate q capacity rate maxBuckets now
         ((ephemeralGetOrCreate pk capacity rate maxBuckets now tbl).2)).2).length
         = maxBuckets) := by
  refine ⟨?_, ?_, ?_⟩
  · -- (1) size bound is preserved
    intro pk capacity rate maxBuckets now tbl hlen
    rcases hfind : tbl.find? (fun e => e.1 == pk) with _ | e
    · simp only [ephemeralGetOrCreate, hfind]
      by_cases hev : maxBuckets < (tbl ++ [(pk, TokenBucket.init capacity rate now)]).length
      · rw [if_pos hev]
        rw [List.length_tail]
        simp only [List.length_append, List.length_cons, List.length_nil] at hev ⊢
        omega
      · rw [if_neg hev]
        simp only [not_lt, List.length_append, List.length_cons, List.length_nil] at hev
        simp only [List.length_append, List.length_cons, List.length_nil]
        omega
    · simp only [ephemeralGetOrCreate, hfind]
      have hmem := List.mem_of_find?_eq_some hfind
      have hp : (e.1 == pk) = true := by
        have h := List.find?_some hfind
        simpa using h
      have hlt : (tbl.filter (fun e2 => e2.1 != pk)).length < tbl.length :=
        List.length_filter_lt_length_iff_exists.mpr ⟨e, hmem, by simp [bne, hp]⟩
      simp only [List.length_append, List.length_cons, List.length_nil]
      omega
  · -- (2) max+1 distinct inserts from empty evict exactly the head
    intro capacity rate maxBuckets now pks hnd hlen
    obtain ⟨x, hx⟩ : ∃ x, pks.drop maxBuckets = [x] := by
      apply List.length_eq_one.mp
      rw [List.length_drop, hlen]
      omega
    have hsplit : pks = pks.take maxBuckets ++ [x] := by
      conv_lhs => rw [← List.take_append_drop maxBuckets pks]
      rw [hx]
    have htklen : (pks.take maxBuckets).length = maxBuckets := by
      rw [List.length_take, hlen, min_eq_left (by omega)]
    have htknd : ((bucketKeys ([] : List (String × TokenBucket))) ++ pks.take maxBuckets).Nodup := by
      simpa [bucketKeys] using (List.take_sublist maxBuckets pks).nodup hnd
    have hfill := insertAllFrom_no_evict capacity rate maxBuckets now (pks.take maxBuckets)
      [] htknd (by simp [htklen])
    have happ : insertAllFrom capacity rate maxBuckets now [] pks =
        (ephemeralGetOrCreate x capacity rate maxBuckets now
          ((pks.take maxBuckets).map (fun pk => (pk, TokenBucket.init capacity rate now)))).2 := by
      conv_lhs => rw [hsplit]
      simp only [insertAllFrom, List.foldl_append, List.nil_append] at hfill ⊢
      rw [hfill]
      simp only [List.foldl_cons, List.foldl_nil]
    have hxfresh : x ∉ bucketKeys
        ((pks.take maxBuckets).map (fun pk => (pk, TokenBucket.init capacity rate now))) := by
      rw [bucketKeys_map]
      have hxnd : (pks.take maxBuckets ++ [x]).Nodup := hsplit ▸ hnd
      rcases List.nodup_append.mp hxnd with ⟨_, _, hdisj⟩
      intro hmem
      exact hdisj hmem (by simp)
    rw [happ, ephemeralGetOrCreate_fresh _ _ _ _ _ _ hxfresh]
    have hlen1 : ((pks.take maxBuckets).map
        (fun pk => (pk, TokenBucket.init capacity rate now))).length = maxBuckets := by
      rw [List.length_map]
      exact htklen
    rw [if_pos (by rw [hlen1]; omega)]
    rw [bucketKeys_tail]
    have hkeys : bucketKeys ((pks.take maxBuckets).map
        (fun pk => (pk, TokenBucket.init capacity rate now)) ++
        [(x, TokenBucket.init capacity rate now)]) = pks.take maxBuckets ++ [x] := by
      have h1 := bucketKeys_map (pks.take maxBuckets) capacity rate now
      simp only [bucketKeys, List.map_append] at h1 ⊢
      rw [h1]
      rfl
    rw [hkeys, ← List.drop_one]
    conv_rhs => rw [hsplit]
  · -- (3) touching protects an entry from the next eviction
    intro capacity rate maxBuckets now tbl pk q hnd hpk hq h2 hmax
    obtain ⟨e, he, hefst⟩ : ∃ e ∈ tbl, e.1 = pk := by
      obtain ⟨e, he, hfst⟩ := List.mem_map.mp hpk
      exact ⟨e, he, hfst⟩
    obtain ⟨f, hfind⟩ : ∃ f, tbl.find? (fun e2 => e2.1 == pk) = some f := by
      have : (tbl.find? (fun e2 => e2.1 == pk)).isSome := by
        rw [List.find?_isSome]
        exact ⟨e, he, by simp [hefst]⟩
      exact Option.isSome_iff_exists.mp this
    have hFlen : (tbl.filter (fun e2 => e2.1 != pk)).length = tbl.length - 1 :=
      length_filter_ne_keys pk tbl hnd hpk
    set F := tbl.filter (fun e2 => e2.1 != pk) with hF
    have hFne : F ≠ [] := by
      rw [← List.length_pos]
      omega
    have htouched : (ephemeralGetOrCreate pk capacity rate maxBuckets now tbl).2 =
        F ++ [(pk, f.2)] := by
      simp only [ephemeralGetOrCreate, hfind]
    have hkeysF : bucketKeys F ⊆ bucketKeys tbl := by
      have hsub : F.Sublist tbl := by rw [hF]; exact List.filter_sublist tbl
      exact (hsub.map Prod.fst).subset
    have hqpk : q ≠ pk := fun h => hq (h ▸ hpk)
    have hqfresh : q ∉ bucketKeys (F ++ [(pk, f.2)]) := by
      intro hmem
      simp only [bucketKeys, List.map_append, List.mem_append, List.map_cons, List.map_nil,
        List.mem_singleton] at hmem
      rcases hmem with hin | hq2
      · exact hq (hkeysF hin)
      · exact hqpk hq2
    have hlen1 : (F ++ [(pk, f.2)]).length = maxBuckets := by
      simp only [List.length_append, List.length_cons, List.length_nil]
      omega
    have hafter : (ephemeralGetOrCreate q capacity rate maxBuckets now (F ++ [(pk, f.2)])).2 =
        F.tail ++ ([(pk, f.2)] ++ [(q, TokenBucket.init capacity rate now)]) := by
      rw [ephemeralGetOrCreate_fresh _ _ _ _ _ _ hqfresh]
      rw [if_pos (by rw [hlen1]; omega)]
      rw [List.append_assoc]
      exact List.tail_append_of_ne_nil hFne
    rw [htouched, hafter]
    constructor
    · simp [bucketKeys]
    · simp only [List.length_append, List.length_tail, List.length_cons, List.length_nil]
      omega

/-- Witness for C6: inserting the three distinct identities "a", "b", "c"
into an empty table bounded at 2 entries leaves exactly ["b", "c"] — the
least-recently-touched "a" was evicted. -/
theorem ephemeral_lru_bound_and_eviction_witness :
    bucketKeys (insertAllFrom 10 2 2 0 [] ["a", "b", "c"]) = ["b", "c"] :=
  ephemeral_lru_bound_and_eviction.2.1 10 2 2 0 ["a", "b", "c"] (by decide) (by decide)

lemma mem_foldl_union (x : String) :
    ∀ (l : List SourceState) (acc : Finset String),
      (x ∈ l.foldl (fun a s => a ∪ s.lastSet) acc) ↔ x ∈ acc ∨ ∃ s ∈ l, x ∈ s.lastSet := by
  intro l
  induction l with
  | nil => intro acc; simp
  | cons s r ih =>
    intro acc
    rw [List.foldl_cons, ih]
    simp only [Finset.mem_union, List.mem_cons]
    constructor
    · rintro ((h | h) | ⟨t, ht, hx⟩)
      · exact Or.inl h
      · exact Or.inr ⟨s, Or.inl rfl, h⟩
      · exact Or.inr ⟨t, Or.inr ht, hx⟩
    · rintro (h | ⟨t, (rfl | ht), hx⟩)
      · exact Or.inl (Or.inl h)
      · exact Or.inl (Or.inr hx)
      · exact Or.inr ⟨t, ht, hx⟩

lemma fetch_one_lastSet (resp : HttpResult) (st : SourceState) :
    (fetch_one resp st).1.lastSet = st.lastSet := by
  rcases resp with _ | ⟨status, etagHdr, lastModHdr, body⟩
  · rfl
  · unfold fetch_one
    by_cases h304 : status = 304
    · simp [h304]
    · by_cases h200 : status = 200
      · rcases body <;> simp [h304, h200]
      · simp [h304, h200]

lemma source_step_lastSet_of_not_success (now ttl : ℚ) (resp : String → HttpResult)
    (jitter : String → ℚ) (s : SourceState)
    (h : (source_step now ttl resp jitter s).2 = false) :
    (source_step now ttl resp jitter s).1.lastSet = s.lastSet := by
  unfold source_step at h ⊢
  by_cases hskip : now < s.nextRetry
  · simp [hskip]
  · simp only [if_neg hskip] at h ⊢
    rcases hf : fetch_one (resp s.url) s with ⟨st1, fr⟩
    have hls : st1.lastSet = s.lastSet := by
      have := fetch_one_lastSet (resp s.url) s
      rw [hf] at this
      exact this
    rcases fr <;> simp [hf] at h ⊢
    exact hls

/-- **C3.**  In a cycle with at least one success, the published snapshot is
exactly the union of every source's (post-cycle) last-known identity set:
an identity is in the snapshot iff some source's last-known set holds it;
and any source that did not succeed this cycle keeps its previous last-known
set, so its previously fetched identities stay in the union. -/
theorem refresh_merges_last_known_sets (now : ℚ) (resp : String → HttpResult)
    (jitter : String → ℚ) (st : CacheState)
    (h : 0 < cycle_successes now resp jitter st) :
    (∀ x : String, x ∈ (refresh_once now resp jitter st).allowed ↔
      ∃ s ∈ (refresh_once now resp jitter st).sources, x ∈ s.lastSet) ∧
    (refresh_once now resp jitter st).lastSuccessTs = now ∧
    (∀ s ∈ st.sources, (source_step now st.ttl_seconds resp jitter s).2 = false →
      (source_step now st.ttl_seconds resp jitter s).1.lastSet = s.lastSet) := by
  refine ⟨?_, ?_, ?_⟩
  · intro x
    unfold refresh_once
    rw [if_pos h]
    simp only
    rw [mem_foldl_union]
    simp
  · unfold refresh_once
    rw [if_pos h]
  · intro s _ hfail
    exact source_step_lastSet_of_not_success now st.ttl_seconds resp jitter s hfail

/-- **C4.**  A cycle in which no source succeeds leaves the visible snapshot,
the last-success timestamp and every source's last-known set unchanged. -/
theorem refresh_all_fail_preserves_snapshot (now : ℚ) (resp : String → HttpResult)
    (jitter : String → ℚ) (st : CacheState)
    (h : cycle_successes now resp jitter st = 0) :
    (refresh_once now resp jitter st).allowed = st.allowed ∧
    (refresh_once now resp jitter st).lastSuccessTs = st.lastSuccessTs ∧
    (∀ s ∈ st.sources, (source_step now st.ttl_seconds resp jitter s).1.lastSet = s.lastSet) := by
  have hnot : ¬ (0 < cycle_successes now resp jitter st) := by omega
  refine ⟨?_, ?_, ?_⟩
  · unfold refresh_once
    rw [if_neg hnot]
  · unfold refresh_once
    rw [if_neg hnot]
  · intro s hs
    apply source_step_lastSet_of_not_success
    have : true ∉ (st.sources.map (fun s => (source_step now st.ttl_seconds resp jitter s).2)) := by
      rw [← List.count_eq_zero]
      exact h
    rcases hflag : (source_step now st.ttl_seconds resp jitter s).2 with _ | _
    · rfl
    · exact absurd (hflag ▸ List.mem_map_of_mem (fun s => (source_step now st.ttl_seconds resp jitter s).2) hs) this

/-- Witness for C3: in the two-source scenario the snapshot after the cycle
is `{x, y, z}` — the failed source's last-known `z` is retained. -/
theorem refresh_merges_last_known_sets_witness :
    0 < cycle_successes 100 demoResp demoJitter demoCacheState ∧
    ("z" ∈ (refresh_once 100 demoResp demoJitter demoCacheState).allowed ↔
      ∃ s ∈ (refresh_once 100 demoResp demoJitter demoCacheState).sources, "z" ∈ s.lastSet) ∧
    (refresh_once 100 demoResp demoJitter demoCacheState).allowed = {"x", "y", "z"} :=
  ⟨by decide,
   (refresh_merges_last_known_sets 100 demoResp demoJitter demoCacheState (by decide)).1 "z",
   by decide⟩

/-- Witness for C4: when every source fails, the previously published
snapshot `{z}` and the last-success timestamp survive unchanged. -/
theorem refresh_all_fail_preserves_snapshot_witness :
    cycle_successes 100 demoRespAllFail demoJitter demoCacheState = 0 ∧
    (refresh_once 100 demoRespAllFail demoJitter demoCacheState).allowed
      = demoCacheState.allowed ∧
    (refresh_once 100 demoRespAllFail demoJitter demoCacheState).lastSuccessTs
      = demoCacheState.lastSuccessTs :=
  ⟨by decide,
   (refresh_all_fail_preserves_snapshot 100 demoRespAllFail demoJitter demoCacheState
     (by decide)).1,
   (refresh_all_fail_preserves_snapshot 100 demoRespAllFail demoJitter demoCacheState
     (by decide)).2.1⟩

/-- **C9 (amended).**  A fetch attempt that fails due to a network error,
timeout, or a non-2xx/non-304 status leaves the source state entirely
unchanged, and every failed attempt leaves the last-known identity set
unchanged; but an attempt that fails because a 200 response carries a
malformed JSON body has already captured the response's validator headers
(when non-empty) before the parse failure. -/
theorem fetch_failure_frame (resp : HttpResult) (st : SourceState) :
    ((fetch_one resp st).1.lastSet = st.lastSet) ∧
    (resp = .networkError → fetch_one resp st = (st, .failed)) ∧
    (∀ status etagHdr lastModHdr body, resp = .response status etagHdr lastModHdr body →
      status ≠ 200 → status ≠ 304 → fetch_one resp st = (st, .failed)) ∧
    (∀ etagHdr lastModHdr, resp = .response 200 etagHdr lastModHdr .malformed →
      (fetch_one resp st).2 = .failed ∧
      (fetch_one resp st).1.etag = (if etagHdr ≠ "" then etagHdr else st.etag) ∧
      (fetch_one resp st).1.lastMod = (if lastModHdr ≠ "" then lastModHdr else st.lastMod)) := by
  refine ⟨fetch_one_lastSet resp st, ?_, ?_, ?_⟩
  · rintro rfl
    rfl
  · rintro status etagHdr lastModHdr body rfl h200 h304
    simp only [fetch_one]
    rw [if_neg h304, if_pos h200]
  · rintro etagHdr lastModHdr rfl
    simp only [fetch_one]
    norm_num

/-- **C9 counterexample.**  A 200 response with entity tag "new" and a
malformed body is a failure outcome, yet the stored entity tag changes
from "old" to "new": failures caused by malformed bodies do update the
conditional-fetch validators, contradicting the claim. -/
theorem fetch_failure_updates_validators_counterexample :
    (fetch_one (.response 200 "new" "" .malformed) demoSource).2 = .failed ∧
    (fetch_one (.response 200 "new" "" .malformed) demoSource).1.etag = "new" ∧
    demoSource.etag = "old" := by
  refine ⟨rfl, rfl, rfl⟩

/-- Witness for the amended C9 at a concrete failing status (503). -/
theorem fetch_failure_frame_witness :
    fetch_one (.response 503 "e" "m" .malformed) demoSource = (demoSource, .failed) :=
  (fetch_failure_frame (.response 503 "e" "m" .malformed) demoSource).2.2.1 503 "e" "m"
    .malformed rfl (by decide) (by decide)

/-- **C1 counterexample.**  A request whose identity is 64 *uppercase* hex
characters is not "exactly 64 lowercase-hex", yet the engine (which
lowercases the pubkey before checking, line 529) does not deny it: in open
gate mode it is accepted. -/
theorem structural_check_counterexample :
    spec_identity_64_lowercase_hex (String.mk (List.replicate 64 'A')) = false ∧
    (decide_request
        { gate_mode := "open", allow_import := "false", eph_rate := 2, eph_burst := 10,
          eph_max_buckets := 10000, startup_grace_seconds := 0, allowed_kinds := ∅ }
        ∅ 0 0 0 []
        { event := { id := "e", pubkey := String.mk (List.replicate 64 'A'), kind := some 1 },
          sourceType := "" }).1.action = .accept := by
  constructor <;> decide

/-- **C1 (amended).**  If the identifier is absent or the identity does not
*lowercase* to exactly 64 hex characters, the engine rejects with
"blocked: invalid event or pubkey" regardless of gate mode, bypass
configuration, event kind, snapshot or limiter state, and the bucket table
is left untouched (no later rule is consulted). -/
theorem structural_check_rejects (cfg : GateConfig) (snapshot : Finset String)
    (lastSuccessTs startupTs now : ℚ) (tbl : List (String × TokenBucket)) (req : Request)
    (h : req.event.id = "" ∨ (pyToLower req.event.pubkey).length ≠ 64 ∨
      (∃ c ∈ (pyToLower req.event.pubkey).data, isHexDigitLower c = false)) :
    decide_request cfg snapshot lastSuccessTs startupTs now tbl req =
      ({ id := req.event.id, action := .reject "blocked: invalid event or pubkey" }, tbl) := by
  have hvs : valid_structure req.event.id (pyToLower req.event.pubkey) = false := by
    unfold valid_structure
    rcases h with h | h | ⟨c, hc, hcf⟩
    · simp [h]
    · simp [h]
    · have : ¬ ((pyToLower req.event.pubkey).data.all isHexDigitLower = true) := by
        rw [List.all_eq_true]
        intro hall
        exact absurd (hall c hc) (by simp [hcf])
      simp only [Bool.and_eq_false_iff]
      right
      simpa using this
  simp only [decide_request, hvs, Bool.not_false, if_pos]

/-- Witness for the amended C1: a 3-character identity is rejected under the
default configuration. -/
theorem structural_check_rejects_witness :
    decide_request defaultGateConfig ∅ 0 0 0 []
        { event := { id := "e", pubkey := "abc", kind := none }, sourceType := "" } =
      ({ id := "e", action := .reject "blocked: invalid event or pubkey" }, []) :=
  structural_check_rejects defaultGateConfig ∅ 0 0 0 []
    { event := { id := "e", pubkey := "abc", kind := none }, sourceType := "" }
    (Or.inr (Or.inl (by decide)))

lemma decide_request_ephemeral_eq (cfg : GateConfig) (snapshot : Finset String)
    (lastSuccessTs startupTs now : ℚ) (tbl : List (String × TokenBucket)) (req : Request)
    (hvalid : valid_structure req.event.id (pyToLower req.event.pubkey) = true)
    (hopen : pyToLower cfg.gate_mode ≠ "open")
    (h1 : 20000 ≤ req.event.kind.getD 0) (h2 : req.event.kind.getD 0 ≤ 29999) :
    decide_request cfg snapshot lastSuccessTs startupTs now tbl req =
      ({ id := req.event.id,
         action :=
           if ((ephemeralGetOrCreate (pyToLower req.event.pubkey) cfg.eph_burst cfg.eph_rate
                 cfg.eph_max_buckets now tbl).1.allow now).1 then Action.accept
           else Action.reject "blocked: rate limited (ephemeral)" },
       (ephemeralGetOrCreate (pyToLower req.event.pubkey) cfg.eph_burst cfg.eph_rate
           cfg.eph_max_buckets now tbl).2.map
         (fun e => if e.1 == pyToLower req.event.pubkey then
             (e.1, ((ephemeralGetOrCreate (pyToLower req.event.pubkey) cfg.eph_burst
                 cfg.eph_rate cfg.eph_max_buckets now tbl).1.allow now).2)
           else e)) := by
  have hopenb : (pyToLower cfg.gate_mode == "open") = false := by
    simpa using hopen
  simp only [decide_request, hvalid, Bool.not_true, Bool.false_eq_true, if_false, hopenb,
    if_pos (And.intro h1 h2)]
  by_cases hres : ((ephemeralGetOrCreate (pyToLower req.event.pubkey) cfg.eph_burst cfg.eph_rate
      cfg.eph_max_buckets now tbl).1.allow now).1
  · simp [hres]
  · simp [hres]

lemma fresh_bucket_allows (pk : String) (cap : ℤ) (rate : ℚ) (maxB : ℕ) (now : ℚ) :
    ((ephemeralGetOrCreate pk cap rate maxB now []).1.allow now).1 = true := by
  have hcap : (1 : ℚ) ≤ (((max 1 cap).toNat : ℕ) : ℚ) := by
    have h1 : 1 ≤ (max 1 cap).toNat := by
      have := le_max_left 1 cap
      omega
    exact_mod_cast h1
  simp only [ephemeralGetOrCreate, List.find?_nil, TokenBucket.allow, TokenBucket.init]
  simp [hcap]

/-- **C2.**  For a structurally valid request in a non-open gate mode with an
ephemeral kind (20000-29999), the decision is exactly the token bucket's
verdict (accept iff the bucket allows, else the rate-limited rejection),
and it is independent of the source-type bypass flag, the kind-bypass set,
the startup grace, the last-success timestamp and the allowlist snapshot. -/
theorem ephemeral_rate_limit_precedence :
    (∀ (cfg : GateConfig) (snapshot : Finset String) (lastSuccessTs startupTs now : ℚ)
       (tbl : List (String × TokenBucket)) (req : Request),
       valid_structure req.event.id (pyToLower req.event.pubkey) = true →
       pyToLower cfg.gate_mode ≠ "open" →
       20000 ≤ req.event.kind.getD 0 → req.event.kind.getD 0 ≤ 29999 →
       (decide_request cfg snapshot lastSuccessTs startupTs now tbl req).1.action =
         (if ((ephemeralGetOrCreate (pyToLower req.event.pubkey) cfg.eph_burst cfg.eph_rate
               cfg.eph_max_buckets now tbl).1.allow now).1 then Action.accept
          else Action.reject "blocked: rate limited (ephemeral)")) ∧
    (∀ (cfg : GateConfig) (ai1 ai2 : String) (ak1 ak2 : Finset ℤ) (g1 g2 : ℤ)
       (snap1 snap2 : Finset String) (ts1 ts2 st1 st2 now : ℚ)
       (tbl : List (String × TokenBucket)) (req : Request),
       valid_structure req.event.id (pyToLower req.event.pubkey) = true →
       pyToLower cfg.gate_mode ≠ "open" →
       20000 ≤ req.event.kind.getD 0 → req.event.kind.getD 0 ≤ 29999 →
       decide_request (withBypassCfg cfg ai1 ak1 g1) snap1 ts1 st1 now tbl req =
         decide_request (withBypassCfg cfg ai2 ak2 g2) snap2 ts2 st2 now tbl req) := by
  constructor
  · intro cfg snapshot lastSuccessTs startupTs now tbl req hvalid hopen h1 h2
    rw [decide_request_ephemeral_eq cfg snapshot lastSuccessTs startupTs now tbl req
      hvalid hopen h1 h2]
  · intro cfg ai1 ai2 ak1 ak2 g1 g2 snap1 snap2 ts1 ts2 st1 st2 now tbl req hvalid hopen h1 h2
    rw [decide_request_ephemeral_eq (withBypassCfg cfg ai1 ak1 g1) snap1 ts1 st1 now tbl req
        hvalid hopen h1 h2,
      decide_request_ephemeral_eq (withBypassCfg cfg ai2 ak2 g2) snap2 ts2 st2 now tbl req
        hvalid hopen h1 h2]
    rfl

/-- Witness for C2: a kind-20001 request from an identity that is *not* in
the (empty) allowlist is accepted in nip05 mode because its fresh bucket
has tokens — rate limiting takes precedence over the allowlist check. -/
theorem ephemeral_rate_limit_precedence_witness :
    (decide_request defaultGateConfig ∅ 0 0 0 []
      { event := { id := "e", pubkey := String.mk (List.replicate 64 'a'),
                   kind := some 20001 },
        sourceType := "" }).1.action = Action.accept := by
  rw [ephemeral_rate_limit_precedence.1 defaultGateConfig ∅ 0 0 0 []
      { event := { id := "e", pubkey := String.mk (List.replicate 64 'a'),
                   kind := some 20001 },
        sourceType := "" } (by decide) (by decide) (by decide) (by decide)]
  rw [fresh_bucket_allows]
  simp

/-- **C10.**  A request whose event lacks the "kind" field is decided exactly
as if its kind were 0 (`event.get("kind", 0)`); and since 0 is in the
default no-verification kind set, a structurally valid kindless request is
accepted under the default configuration for *every* allowlist snapshot —
no allowlist membership check takes place. -/
theorem missing_kind_defaults_to_zero :
    (∀ (cfg : GateConfig) (snapshot : Finset String) (lastSuccessTs startupTs now : ℚ)
       (tbl : List (String × TokenBucket)) (id pk src : String),
       decide_request cfg snapshot lastSuccessTs startupTs now tbl
           { event := { id := id, pubkey := pk, kind := none }, sourceType := src } =
         decide_request cfg snapshot lastSuccessTs startupTs now tbl
           { event := { id := id, pubkey := pk, kind := some 0 }, sourceType := src }) ∧
    ((0 : ℤ) ∈ defaultGateConfig.allowed_kinds) ∧
    (∀ (snapshot : Finset String) (lastSuccessTs startupTs now : ℚ)
       (tbl : List (String × TokenBucket)) (id pk src : String),
       valid_structure id (pyToLower pk) = true →
       (decide_request defaultGateConfig snapshot lastSuccessTs startupTs now tbl
           { event := { id := id, pubkey := pk, kind := none }, sourceType := src }).1.action
         = Action.accept) := by
  refine ⟨?_, by decide, ?_⟩
  · intro cfg snapshot lastSuccessTs startupTs now tbl id pk src
    rfl
  · intro snapshot lastSuccessTs startupTs now tbl id pk src hvalid
    have hopenb : (pyToLower defaultGateConfig.gate_mode == "open") = false := by decide
    have hbypass : should_bypass_source src defaultGateConfig.allow_import = false := rfl
    have hkind : should_allow_kind_without_nip05 (0 : ℤ)
        defaultGateConfig.allowed_kinds = true := by decide
    simp only [decide_request, hvalid, Bool.not_true, Bool.false_eq_true, if_false, hopenb,
      Option.getD_none, hbypass, hkind]
    norm_num

/-- Witness for C10: a structurally valid request with no "kind" field is
accepted under the default configuration with an empty allowlist. -/
theorem missing_kind_defaults_to_zero_witness :
    (decide_request defaultGateConfig ∅ 0 0 0 []
        { event := { id := "e", pubkey := String.mk (List.replicate 64 'a'), kind := none },
          sourceType := "" }).1.action = Action.accept :=
  missing_kind_defaults_to_zero.2.2 ∅ 0 0 0 [] "e" (String.mk (List.replicate 64 'a')) ""
    (by decide)

lemma emitLoopFuel_snd (t maxv acc : ℕ) (ht : 1 ≤ t) :
    ∀ (fuel bits : ℕ), bits ≤ fuel → (emitLoopFuel t maxv acc fuel bits).2 = bits % t := by
  intro fuel
  induction fuel with
  | zero =>
    intro bits hb
    have hb0 : bits = 0 := by omega
    subst hb0
    simp [emitLoopFuel]
  | succ fuel ih =>
    intro bits hb
    by_cases hcase : t ≤ bits
    · simp only [emitLoopFuel, if_pos hcase]
      rw [ih (bits - t) (by omega)]
      exact (Nat.mod_eq_sub_mod hcase).symm
    · simp only [emitLoopFuel, if_neg hcase]
      exact (Nat.mod_eq_of_lt (by omega)).symm

lemma emitLoop_snd (t maxv acc bits : ℕ) (ht : 1 ≤ t) :
    (emitLoop t maxv acc bits).2 = bits % t :=
  emitLoopFuel_snd t maxv acc ht bits bits le_rfl

lemma convertLoop_bits (f t maxv max_acc : ℕ) (ht : 1 ≤ t) :
    ∀ (data : List ℕ) (acc bits : ℕ), bits < t →
      ∀ (ret : List ℕ) (accF bitsF : ℕ),
        convertLoop f t maxv max_acc data acc bits = some (ret, accF, bitsF) →
        bitsF = (bits + f * data.length) % t := by
  intro data
  induction data with
  | nil =>
    intro acc bits hb ret accF bitsF h
    simp only [convertLoop, Option.some.injEq, Prod.mk.injEq] at h
    obtain ⟨-, -, h3⟩ := h
    rw [← h3]
    simp [Nat.mod_eq_of_lt hb]
  | cons v rest ih =>
    intro acc bits hb ret accF bitsF h
    simp only [convertLoop] at h
    by_cases hv : v >>> f ≠ 0
    · simp [hv] at h
    · rw [if_neg hv] at h
      have her : (emitLoop t maxv (((acc <<< f) ||| v) &&& max_acc) (bits + f)).2
          = (bits + f) % t :=
        emitLoop_snd t maxv _ _ ht
      rcases hrec : convertLoop f t maxv max_acc rest (((acc <<< f) ||| v) &&& max_acc)
          (emitLoop t maxv (((acc <<< f) ||| v) &&& max_acc) (bits + f)).2
        with _ | ⟨tl, accF2, bitsF2⟩
      · rw [hrec] at h
        simp at h
      · rw [hrec] at h
        simp only [Option.some.injEq, Prod.mk.injEq] at h
        obtain ⟨-, -, h3⟩ := h
        have hb2 : (emitLoop t maxv (((acc <<< f) ||| v) &&& max_acc) (bits + f)).2 < t := by
          rw [her]
          exact Nat.mod_lt _ (by omega)
        have hr := ih _ _ hb2 tl accF2 bitsF2 hrec
        rw [← h3, hr, her, Nat.mod_add_mod]
        congr 1
        simp only [List.length_cons]
        ring

lemma convertbits_inv (data : List ℕ) (h : convertbits data 5 8 false ≠ []) :
    ∃ acc bits,
      convertLoop 5 8 255 4095 data 0 0 = some (convertbits data 5 8 false, acc, bits) ∧
      bits < 5 ∧ ((acc <<< (8 - bits)) &&& 255) = 0 ∧
      bits = (5 * data.length) % 8 := by
  have h255 : ((1 <<< 8 : ℕ)) - 1 = 255 := by decide
  have h4095 : ((1 <<< (5 + 8 - 1) : ℕ)) - 1 = 4095 := by decide
  simp only [convertbits, h255, h4095] at h ⊢
  rcases hcl : convertLoop 5 8 255 4095 data 0 0 with _ | ⟨ret, acc, bits⟩
  · rw [hcl] at h
    simp at h
  · rw [hcl] at h
    simp only [Bool.false_eq_true, if_false] at h ⊢
    by_cases hfail : 5 ≤ bits ∨ ((acc <<< (8 - bits)) &&& 255) ≠ 0
    · rw [if_pos hfail] at h
      simp at h
    · rw [if_neg hfail] at h ⊢
      push_neg at hfail
      refine ⟨acc, bits, rfl, by omega, hfail.2, ?_⟩
      have := convertLoop_bits 5 8 255 4095 (by omega) data 0 0 (by omega) ret acc bits hcl
      simpa using this

lemma bech32_decode_inv (s : List Char) (h : (bech32_decode s).1 ≠ "") :
    ∃ (j pos : ℕ) (data : List ℕ),
      ((pyStripChars s).map Char.toLower).reverse.findIdx? (fun c => c == '1') = some j ∧
      pos = ((pyStripChars s).map Char.toLower).length - 1 - j ∧
      1 ≤ pos ∧ pos + 7 ≤ ((pyStripChars s).map Char.toLower).length ∧
      mapCharset (((pyStripChars s).map Char.toLower).drop (pos + 1)) = some data ∧
      bech32_polymod
        (bech32_hrp_expand (((pyStripChars s).map Char.toLower).take pos) ++ data) = 1 ∧
      bech32_decode s =
        (⟨((pyStripChars s).map Char.toLower).take pos⟩, data.take (data.length - 6)) ∧
      ((pyStripChars s).any (fun x => x.toNat < 33 || 126 < x.toNat)) = false := by
  by_cases h1 : (pyStripChars s).any (fun x => x.toNat < 33 || 126 < x.toNat)
  · exfalso
    apply h
    simp only [bech32_decode, if_pos h1]
  by_cases h2 : (pyStripChars s).map Char.toLower ≠ pyStripChars s ∧
      (pyStripChars s).map Char.toUpper ≠ pyStripChars s
  · exfalso
    apply h
    simp only [bech32_decode, if_neg h1, if_pos h2]
  rcases hfind : ((pyStripChars s).map Char.toLower).reverse.findIdx? (fun c => c == '1')
    with _ | j
  · exfalso
    apply h
    simp only [bech32_decode, if_neg h1, if_neg h2, hfind]
  by_cases h3 : ((pyStripChars s).map Char.toLower).length - 1 - j < 1 ∨
      ((pyStripChars s).map Char.toLower).length <
        ((pyStripChars s).map Char.toLower).length - 1 - j + 7
  · exfalso
    apply h
    simp only [bech32_decode, if_neg h1, if_neg h2, hfind, if_pos h3]
  rcases hmc : mapCharset (((pyStripChars s).map Char.toLower).drop
      (((pyStripChars s).map Char.toLower).length - 1 - j + 1)) with _ | data
  · exfalso
    apply h
    simp only [bech32_decode, if_neg h1, if_neg h2, hfind, if_neg h3, hmc]
  by_cases h4 : bech32_polymod (bech32_hrp_expand
      (((pyStripChars s).map Char.toLower).take
        (((pyStripChars s).map Char.toLower).length - 1 - j)) ++ data) = 1
  · refine ⟨j, ((pyStripChars s).map Char.toLower).length - 1 - j, data,
      rfl, rfl, by omega, by omega, hmc, h4, ?_, by simpa using h1⟩
    simp only [bech32_decode, if_neg h1, if_neg h2, hfind, if_neg h3, hmc, if_pos h4]
  · exfalso
    apply h
    simp only [bech32_decode, if_neg h1, if_neg h2, hfind, if_neg h3, hmc, if_neg h4]

lemma bytesToHex_length (l : List ℕ) : (bytesToHex l).length = 2 * l.length := by
  induction l with
  | nil => rfl
  | cons b r ih =>
    have ih2 : ((r.map byteHexPair).flatten).length = 2 * r.length := ih
    show (((b :: r).map byteHexPair).flatten).length = 2 * (b :: r).length
    rw [List.map_cons, List.flatten_cons, List.length_append, ih2]
    simp only [byteHexPair, List.length_cons, List.length_nil]
    omega

lemma mapCharset_length :
    ∀ (l : List Char) (d : List ℕ), mapCharset l = some d → d.length = l.length := by
  intro l
  induction l with
  | nil =>
    intro d h
    simp only [mapCharset, Option.some.injEq] at h
    rw [← h]
    rfl
  | cons c rest ih =>
    intro d h
    simp only [mapCharset] at h
    rcases hci : charsetIndex? c with _ | i
    · rw [hci] at h
      simp at h
    · rw [hci] at h
      rcases hmc : mapCharset rest with _ | tl
      · rw [hmc] at h
        simp at h
      · rw [hmc] at h
        simp only [Option.some.injEq] at h
        rw [← h]
        simp [ih tl hmc]

/-- **C7.**  The Identity Decoder is total (a plain function returning `""`
for invalid input, never raising): whenever it returns a canonical identity,
the human-readable prefix is "npub", the polymod checksum over the expanded
prefix and the mapped data equals the residue 1, the 5-to-8-bit regrouping
ends with fewer than 5 bits remaining and those trailing bits all zero,
the byte length is exactly 32, and the output is its 64-character hex form;
every other input yields the invalid result `""`. -/
theorem npub_decoder_totality (s : String) :
    npub_to_hex s = "" ∨
    ∃ (data : List ℕ) (acc bits : ℕ),
      (bech32_decode s.data).1 = "npub" ∧
      mapCharset (((pyStripChars s.data).map Char.toLower).drop 5) = some data ∧
      bech32_polymod (bech32_hrp_expand "npub".data ++ data) = 1 ∧
      6 ≤ data.length ∧
      convertLoop 5 8 255 4095 (data.take (data.length - 6)) 0 0 =
        some (convertbits (data.take (data.length - 6)) 5 8 false, acc, bits) ∧
      bits = (5 * (data.length - 6)) % 8 ∧ bits < 5 ∧
      ((acc <<< (8 - bits)) &&& 255) = 0 ∧
      (convertbits (data.take (data.length - 6)) 5 8 false).length = 32 ∧
      npub_to_hex s = bytesToHex (convertbits (data.take (data.length - 6)) 5 8 false) ∧
      (npub_to_hex s).length = 64 := by
  by_cases hz : npub_to_hex s = ""
  · exact Or.inl hz
  right
  have h1 : ¬((bech32_decode s.data).1 ≠ "npub" ∨ (bech32_decode s.data).2 = []) := by
    intro hcon
    apply hz
    simp only [npub_to_hex, if_pos hcon]
  have hsplit1 := h1
  push_neg at hsplit1
  obtain ⟨hhrp, hdata⟩ := hsplit1
  have h2 : ¬(convertbits (bech32_decode s.data).2 5 8 false = [] ∨
      (convertbits (bech32_decode s.data).2 5 8 false).length ≠ 32) := by
    intro hcon
    apply hz
    simp only [npub_to_hex, if_neg h1, if_pos hcon]
  have hsplit2 := h2
  push_neg at hsplit2
  obtain ⟨hcbne, hcblen⟩ := hsplit2
  have hval : npub_to_hex s = bytesToHex (convertbits (bech32_decode s.data).2 5 8 false) := by
    simp only [npub_to_hex, if_neg h1, if_neg h2]
  have hne : (bech32_decode s.data).1 ≠ "" := by
    rw [hhrp]
    decide
  obtain ⟨j, pos, data0, hfind, hposdef, hpos1, hpos7, hmc, hpoly, hdec, hprint⟩ :=
    bech32_decode_inv s.data hne
  have htake : ((pyStripChars s.data).map Char.toLower).take pos = "npub".data := by
    have hfst := congrArg Prod.fst hdec
    rw [hhrp] at hfst
    exact congrArg String.data hfst.symm
  have hpos4 : pos = 4 := by
    have hlen := congrArg List.length htake
    rw [List.length_take] at hlen
    have : pos ⊓ ((pyStripChars s.data).map Char.toLower).length = 4 := by
      rw [hlen]
      rfl
    omega
  subst hpos4
  have hdlen : data0.length = ((pyStripChars s.data).map Char.toLower).length - 5 := by
    have := mapCharset_length _ _ hmc
    rw [this, List.length_drop]
  have hd6 : 6 ≤ data0.length := by omega
  have hsnd := congrArg Prod.snd hdec
  simp only at hsnd
  have hpayne : convertbits (data0.take (data0.length - 6)) 5 8 false ≠ [] := by
    rw [← hsnd]
    exact hcbne
  obtain ⟨acc, bits, hcl, hbits5, hzeros, hbitsdef⟩ := convertbits_inv _ hpayne
  refine ⟨data0, acc, bits, hhrp, ?_, ?_, hd6, hcl, ?_, hbits5, hzeros, ?_, ?_, ?_⟩
  · exact hmc
  · rw [← htake]
    exact hpoly
  · rw [hbitsdef]
    congr 1
    rw [List.length_take]
    omega
  · rw [← hsnd]
    exact hcblen
  · rw [hval, hsnd]
  · rw [hval]
    rw [bytesToHex_length]
    rw [hsnd] at hcblen
    rw [hsnd, hcblen]

lemma genXor_lt (b : ℕ) : genXor b < 2 ^ 30 := by
  unfold genXor
  refine Nat.xor_lt_two_pow (Nat.xor_lt_two_pow (Nat.xor_lt_two_pow
    (Nat.xor_lt_two_pow ?_ ?_) ?_) ?_) ?_ <;> split <;> decide

lemma and_mask25_eq_mod (chk : ℕ) : chk &&& 0x1ffffff = chk % 2 ^ 25 := by
  have h : (0x1ffffff : ℕ) = 2 ^ 25 - 1 := by norm_num
  rw [h, Nat.and_pow_two_sub_one_eq_mod]

lemma shifted_low5_eq_zero (x : ℕ) : (x <<< 5) &&& 31 = 0 := by
  have h : (31 : ℕ) = 2 ^ 5 - 1 := by norm_num
  rw [Nat.shiftLeft_eq, h, Nat.and_pow_two_sub_one_eq_mod, Nat.mul_mod_left]

lemma bech32_step_lt (chk v : ℕ) (hv : v < 2 ^ 30) : bech32_step chk v < 2 ^ 30 := by
  unfold bech32_step
  refine Nat.xor_lt_two_pow (Nat.xor_lt_two_pow ?_ hv) (genXor_lt _)
  have h1 : chk &&& 0x1ffffff < 2 ^ 25 := by
    rw [and_mask25_eq_mod]
    exact Nat.mod_lt _ (by norm_num)
  rw [Nat.shiftLeft_eq]
  calc (chk &&& 0x1ffffff) * 2 ^ 5 < 2 ^ 25 * 2 ^ 5 := by
        have h32 : (0 : ℕ) < 2 ^ 5 := by norm_num
        exact (Nat.mul_lt_mul_right h32).mpr h1
  _ = 2 ^ 30 := by norm_num

lemma genXor_low5_inj_fin :
    ∀ (b1 b2 : Fin 32), genXor b1.val &&& 31 = genXor b2.val &&& 31 → b1 = b2 := by decide

lemma genXor_low5_inj (b1 b2 : ℕ) (h1 : b1 < 32) (h2 : b2 < 32)
    (h : genXor b1 &&& 31 = genXor b2 &&& 31) : b1 = b2 := by
  have := genXor_low5_inj_fin ⟨b1, h1⟩ ⟨b2, h2⟩ h
  exact congrArg Fin.val this

lemma bech32_step_inj_v (chk v1 v2 : ℕ) (h : bech32_step chk v1 = bech32_step chk v2) :
    v1 = v2 := by
  unfold bech32_step at h
  have h2 := congrArg (fun x => x ^^^ genXor (chk >>> 25)) h
  simp only [Nat.xor_cancel_right] at h2
  have h3 := congrArg (fun x => ((chk &&& 0x1ffffff) <<< 5) ^^^ x) h2
  simpa only [Nat.xor_cancel_left] using h3

lemma bech32_step_inj_chk (chk1 chk2 v : ℕ) (h1 : chk1 < 2 ^ 30) (h2 : chk2 < 2 ^ 30)
    (h : bech32_step chk1 v = bech32_step chk2 v) : chk1 = chk2 := by
  unfold bech32_step at h
  -- cancel the shared symbol `v`
  have hE : ((chk1 &&& 0x1ffffff) <<< 5) ^^^ genXor (chk1 >>> 25) =
      ((chk2 &&& 0x1ffffff) <<< 5) ^^^ genXor (chk2 >>> 25) := by
    have hr : ∀ a g : ℕ, (a ^^^ v) ^^^ g = (a ^^^ g) ^^^ v := by
      intro a g
      rw [Nat.xor_assoc, Nat.xor_comm v g, ← Nat.xor_assoc]
    rw [hr, hr] at h
    have := congrArg (fun x => x ^^^ v) h
    simpa only [Nat.xor_cancel_right] using this
  -- compare the low 5 bits: the shifted part contributes nothing there
  have hb1 : chk1 >>> 25 < 32 := by
    rw [Nat.shiftRight_eq_div_pow]
    omega
  have hb2 : chk2 >>> 25 < 32 := by
    rw [Nat.shiftRight_eq_div_pow]
    omega
  have hlow := congrArg (fun x => x &&& 31) hE
  simp only [Nat.and_xor_distrib_right, shifted_low5_eq_zero, Nat.zero_xor] at hlow
  have hbeq : chk1 >>> 25 = chk2 >>> 25 := genXor_low5_inj _ _ hb1 hb2 hlow
  rw [hbeq] at hE
  have hA := congrArg (fun x => x ^^^ genXor (chk2 >>> 25)) hE
  simp only [Nat.xor_cancel_right] at hA
  have hshift : (chk1 &&& 0x1ffffff) = (chk2 &&& 0x1ffffff) := by
    rw [Nat.shiftLeft_eq, Nat.shiftLeft_eq] at hA
    exact Nat.eq_of_mul_eq_mul_right (by norm_num) hA
  rw [and_mask25_eq_mod, and_mask25_eq_mod] at hshift
  rw [Nat.shiftRight_eq_div_pow, Nat.shiftRight_eq_div_pow] at hbeq
  omega

lemma foldl_step_lt (l : List ℕ) (hl : ∀ v ∈ l, v < 2 ^ 30) :
    ∀ chk, chk < 2 ^ 30 → l.foldl bech32_step chk < 2 ^ 30 := by
  induction l with
  | nil => intro chk h; simpa using h
  | cons v r ih =>
    intro chk _
    rw [List.foldl_cons]
    exact ih (fun u hu => hl u (by simp [hu])) _
      (bech32_step_lt chk v (hl v (by simp)))

lemma foldl_step_inj (l : List ℕ) (hl : ∀ v ∈ l, v < 2 ^ 30) :
    ∀ chk1 chk2, chk1 < 2 ^ 30 → chk2 < 2 ^ 30 → chk1 ≠ chk2 →
      l.foldl bech32_step chk1 ≠ l.foldl bech32_step chk2 := by
  induction l with
  | nil => intro chk1 chk2 _ _ hne; simpa using hne
  | cons v r ih =>
    intro chk1 chk2 h1 h2 hne
    rw [List.foldl_cons, List.foldl_cons]
    have hv : v < 2 ^ 30 := hl v (by simp)
    exact ih (fun u hu => hl u (by simp [hu])) _ _
      (bech32_step_lt chk1 v hv) (bech32_step_lt chk2 v hv)
      (fun he => hne (bech32_step_inj_chk chk1 chk2 v h1 h2 he))

/-- Changing one symbol of the value list changes the polymod checksum. -/
lemma bech32_polymod_change (pre suf : List ℕ) (v1 v2 : ℕ)
    (hpre : ∀ u ∈ pre, u < 2 ^ 30) (hsuf : ∀ u ∈ suf, u < 2 ^ 30)
    (hv1 : v1 < 2 ^ 30) (hv2 : v2 < 2 ^ 30) (hne : v1 ≠ v2) :
    bech32_polymod (pre ++ v1 :: suf) ≠ bech32_polymod (pre ++ v2 :: suf) := by
  unfold bech32_polymod
  rw [List.foldl_append, List.foldl_append, List.foldl_cons, List.foldl_cons]
  have hchkp : pre.foldl bech32_step 1 < 2 ^ 30 := foldl_step_lt pre hpre 1 (by norm_num)
  exact foldl_step_inj suf hsuf _ _
    (bech32_step_lt _ v1 hv1) (bech32_step_lt _ v2 hv2)
    (fun he => hne (bech32_step_inj_v _ v1 v2 he))

lemma findIdx?_some_spec {α : Type} (p : α → Bool) :
    ∀ (l : List α) (i : ℕ), l.findIdx? p = some i →
      ∃ h : i < l.length, p (l.get ⟨i, h⟩) = true := by
  intro l
  induction l with
  | nil => intro i h; simp [List.findIdx?] at h
  | cons x xs ih =>
    intro i h
    rw [List.findIdx?_cons] at h
    by_cases hx : p x
    · rw [if_pos hx] at h
      obtain rfl : i = 0 := by simpa using h.symm
      exact ⟨by simp, by simpa using hx⟩
    · rw [if_neg hx, List.findIdx?_succ] at h
      rcases hrec : xs.findIdx? p with _ | i2
      · rw [hrec] at h
        simp at h
      · rw [hrec] at h
        simp at h
        obtain rfl : i = i2 + 1 := h.symm
        obtain ⟨hlt, hp⟩ := ih i2 hrec
        exact ⟨by simpa using Nat.succ_lt_succ hlt, by simpa using hp⟩

lemma charsetIndex?_spec (c : Char) (v : ℕ) (h : charsetIndex? c = some v) :
    v < 32 ∧ ∃ hv : v < bech32_charset.length, bech32_charset.get ⟨v, hv⟩ = c := by
  obtain ⟨hlt, hp⟩ := findIdx?_some_spec (fun x => x == c) bech32_charset v h
  refine ⟨by simpa using hlt, hlt, ?_⟩
  simpa using hp

lemma mapCharset_getElem :
    ∀ (l : List Char) (d : List ℕ), mapCharset l = some d →
      ∀ (k : ℕ) (hk : k < l.length) (hk2 : k < d.length),
        charsetIndex? (l.get ⟨k, hk⟩) = some (d.get ⟨k, hk2⟩) := by
  intro l
  induction l with
  | nil => intro d h k hk; simp at hk
  | cons c rest ih =>
    intro d h k hk hk2
    simp only [mapCharset] at h
    rcases hci : charsetIndex? c with _ | i
    · rw [hci] at h; simp at h
    · rw [hci] at h
      rcases hmr : mapCharset rest with _ | tl
      · rw [hmr] at h; simp at h
      · rw [hmr] at h
        simp only [Option.some.injEq] at h
        subst h
        cases k with
        | zero => simpa using hci
        | succ k2 =>
          exact ih tl hmr k2 (by simpa using hk) (by simpa using hk2)

lemma mapCharset_set :
    ∀ (l : List Char) (d : List ℕ), mapCharset l = some d →
      ∀ (k : ℕ) (c : Char) (v : ℕ), charsetIndex? c = some v →
        mapCharset (l.set k c) = some (d.set k v) := by
  intro l
  induction l with
  | nil =>
    intro d h k c v hc
    simp only [mapCharset, Option.some.injEq] at h
    subst h
    rfl
  | cons x rest ih =>
    intro d h k c v hc
    simp only [mapCharset] at h
    rcases hci : charsetIndex? x with _ | i
    · rw [hci] at h; simp at h
    · rw [hci] at h
      rcases hmr : mapCharset rest with _ | tl
      · rw [hmr] at h; simp at h
      · rw [hmr] at h
        simp only [Option.some.injEq] at h
        subst h
        cases k with
        | zero =>
          simp only [List.set_cons_zero, mapCharset, hc, hmr]
        | succ k2 =>
          simp only [List.set_cons_succ, mapCharset, hci, ih tl hmr k2 c v hc]

lemma mapCharset_all_lt :
    ∀ (l : List Char) (d : List ℕ), mapCharset l = some d → ∀ u ∈ d, u < 32 := by
  intro l
  induction l with
  | nil =>
    intro d h u hu
    simp only [mapCharset, Option.some.injEq] at h
    subst h
    simp at hu
  | cons c rest ih =>
    intro d h u hu
    simp only [mapCharset] at h
    rcases hci : charsetIndex? c with _ | i
    · rw [hci] at h; simp at h
    · rw [hci] at h
      rcases hmr : mapCharset rest with _ | tl
      · rw [hmr] at h; simp at h
      · rw [hmr] at h
        simp only [Option.some.injEq] at h
        subst h
        rcases List.mem_cons.mp hu with rfl | hmem
        · exact (charsetIndex?_spec c u hci).1
        · exact ih tl hmr u hmem

lemma reverse_set {α : Type} (l : List α) (i : ℕ) (a : α) (hi : i < l.length) :
    (l.set i a).reverse = l.reverse.set (l.length - 1 - i) a := by
  apply List.ext_getElem
  · simp
  · intro k hk1 hk2
    have hk : k < l.length := by simpa using hk1
    rw [List.getElem_reverse, List.getElem_set, List.getElem_set, List.getElem_reverse]
    by_cases hcase : i = (l.set i a).length - 1 - k
    · rw [if_pos hcase, if_pos (by simp at hcase ⊢; omega)]
    · rw [if_neg hcase, if_neg (by simp at hcase ⊢; omega)]
      congr 1
      simp

lemma findIdx?_set_eq {α : Type} (p : α → Bool) :
    ∀ (l : List α) (k : ℕ) (a : α),
      (∀ h : k < l.length, p (l.get ⟨k, h⟩) = false) → p a = false →
      (l.set k a).findIdx? p = l.findIdx? p := by
  intro l
  induction l with
  | nil => intro k a _ _; simp
  | cons x xs ih =>
    intro k a hold hnew
    cases k with
    | zero =>
      have hx : p x = false := hold (by simp)
      rw [List.set_cons_zero, List.findIdx?_cons, List.findIdx?_cons, if_neg (by simp [hnew]),
        if_neg (by simp [hx])]
    | succ k2 =>
      rw [List.set_cons_succ, List.findIdx?_cons, List.findIdx?_cons]
      by_cases hx : p x
      · rw [if_pos hx, if_pos hx]
      · rw [if_neg hx, if_neg hx, List.findIdx?_succ, List.findIdx?_succ,
          ih k2 a (fun h => by simpa using hold (by simpa using Nat.succ_lt_succ h)) hnew]

lemma take_set_of_le {α : Type} (l : List α) (i n : ℕ) (a : α) (h : n ≤ i) :
    (l.set i a).take n = l.take n := by
  apply List.ext_getElem
  · simp
  · intro k hk1 hk2
    have hkn : k < n := lt_of_lt_of_le hk2 (List.length_take_le n l)
    rw [List.getElem_take, List.getElem_take, List.getElem_set, if_neg (by omega)]

lemma dropWhile_set_eq_self {α : Type} (p : α → Bool) (l : List α)
    (hl : l.dropWhile p = l) (i : ℕ) (c : α) (hc : p c = false) :
    (l.set i c).dropWhile p = l.set i c := by
  cases l with
  | nil => simp
  | cons x xs =>
    have hx : p x = false := by
      by_contra hpx
      rw [List.dropWhile_cons, if_pos (by simpa using hpx)] at hl
      have hle := (List.dropWhile_sublist (l := xs) p).length_le
      have := congrArg List.length hl
      simp at this
      omega
    cases i with
    | zero => rw [List.set_cons_zero, List.dropWhile_cons, if_neg (by simp [hc])]
    | succ n => rw [List.set_cons_succ, List.dropWhile_cons, if_neg (by simp [hx])]

lemma pyStripChars_set (s : List Char) (hstrip : pyStripChars s = s)
    (i : ℕ) (hi : i < s.length) (c : Char) (hc : pyWhitespace c = false) :
    pyStripChars (s.set i c) = s.set i c := by
  have hsub1 := (List.dropWhile_sublist (l := s) pyWhitespace).length_le
  have hd1 : s.dropWhile pyWhitespace = s := by
    apply (List.dropWhile_sublist pyWhitespace).eq_of_length
    have hlen := congrArg List.length hstrip
    unfold pyStripChars at hlen
    have hsub2 := (List.dropWhile_sublist
      (l := (s.dropWhile pyWhitespace).reverse) pyWhitespace).length_le
    simp only [List.length_reverse] at hlen hsub2
    omega
  have hd2 : s.reverse.dropWhile pyWhitespace = s.reverse := by
    unfold pyStripChars at hstrip
    rw [hd1] at hstrip
    apply (List.dropWhile_sublist pyWhitespace).eq_of_length
    have hlen := congrArg List.length hstrip
    simp only [List.length_reverse] at hlen ⊢
    omega
  have hs1 : (s.set i c).dropWhile pyWhitespace = s.set i c :=
    dropWhile_set_eq_self pyWhitespace s hd1 i c hc
  have hs2 : (s.set i c).reverse.dropWhile pyWhitespace = (s.set i c).reverse := by
    rw [reverse_set s i c hi]
    exact dropWhile_set_eq_self pyWhitespace s.reverse hd2 _ c hc
  unfold pyStripChars
  rw [hs1, hs2, List.reverse_reverse]

lemma charset_no_ws : ∀ c ∈ bech32_charset, pyWhitespace c = false := by decide

lemma charset_printable : ∀ c ∈ bech32_charset, 33 ≤ c.toNat ∧ c.toNat ≤ 126 := by decide

lemma charset_lower : ∀ c ∈ bech32_charset, Char.toLower c = c := by decide

lemma charset_no_one : ∀ c ∈ bech32_charset, (c == '1') = false := by decide

lemma charset_index_isSome : ∀ c ∈ bech32_charset, (charsetIndex? c).isSome := by decide

lemma hrp_expand_lt (hrp : List Char) : ∀ u ∈ bech32_hrp_expand hrp, u < 2 ^ 30 := by
  intro u hu
  unfold bech32_hrp_expand at hu
  rcases List.mem_append.mp hu with hu1 | hu2
  · rcases List.mem_append.mp hu1 with hu3 | hu4
    · obtain ⟨x, -, rfl⟩ := List.mem_map.mp hu3
      have hx : x.toNat < 2 ^ 32 := UInt32.toNat_lt x.val
      rw [Nat.shiftRight_eq_div_pow]
      omega
    · have : u = 0 := by simpa using hu4
      subst this
      norm_num
  · obtain ⟨x, -, rfl⟩ := List.mem_map.mp hu2
    have h31 : (31 : ℕ) = 2 ^ 5 - 1 := by norm_num
    rw [h31, Nat.and_pow_two_sub_one_eq_mod]
    have : x.toNat % 2 ^ 5 < 2 ^ 5 := Nat.mod_lt _ (by norm_num)
    omega

/-- **C8.**  For a cleanly formatted encoded identity that decodes
successfully (determinism is immediate: the decoder is a pure function of
its input), replacing any single character among the final 6 (the checksum
tail) by a different alphabet symbol makes the polymod checksum differ from
the required residue 1, so the decode fails. -/
theorem bech32_tail_corruption_breaks_decode (s : List Char) (hrp : String) (pl : List ℕ)
    (hdec : bech32_decode s = (hrp, pl)) (hne : hrp ≠ "")
    (hstrip : pyStripChars s = s) (hlower : s.map Char.toLower = s)
    (i : ℕ) (hi1 : s.length - 6 ≤ i) (hi2 : i < s.length)
    (c2 : Char) (hc2 : c2 ∈ bech32_charset) (hdiff : c2 ≠ s.get ⟨i, hi2⟩) :
    (bech32_decode (s.set i c2)).1 = "" ∧
    ∃ data2 : List ℕ,
      mapCharset ((s.set i c2).drop (hrp.length + 1)) = some data2 ∧
      bech32_polymod (bech32_hrp_expand hrp.data ++ data2) ≠ 1 := by
  have hne1 : (bech32_decode s).1 ≠ "" := by
    rw [hdec]
    exact hne
  obtain ⟨j, pos, data, hfind, hposdef, hpos1, hpos7, hmc, hpoly, hdec2, hprint⟩ :=
    bech32_decode_inv s hne1
  rw [hstrip, hlower] at hfind hposdef hpos7 hmc hpoly hdec2
  rw [hstrip] at hprint
  have hhrp : hrp = (⟨s.take pos⟩ : String) :=
    congrArg Prod.fst (hdec.symm.trans hdec2)
  have hhrplen : hrp.length = pos := by
    rw [hhrp]
    show (s.take pos).length = pos
    rw [List.length_take, min_eq_left (by omega)]
  have hipos : pos + 1 ≤ i := by omega
  have hdlen : data.length = s.length - (pos + 1) := by
    rw [mapCharset_length _ _ hmc, List.length_drop]
  have hklt : i - (pos + 1) < data.length := by omega
  have hkdp : i - (pos + 1) < (s.drop (pos + 1)).length := by
    rw [List.length_drop]
    omega
  -- the original symbol at position i and its charset index
  have hgetdp : (s.drop (pos + 1)).get ⟨i - (pos + 1), hkdp⟩ = s.get ⟨i, hi2⟩ := by
    show (s.drop (pos + 1))[i - (pos + 1)] = s[i]
    rw [List.getElem_drop]
    congr 1
    omega
  have hciold : charsetIndex? (s.get ⟨i, hi2⟩) = some (data.get ⟨i - (pos + 1), hklt⟩) := by
    rw [← hgetdp]
    exact mapCharset_getElem _ _ hmc _ hkdp hklt
  obtain ⟨hvlt, hv2, hgetv⟩ := charsetIndex?_spec _ _ hciold
  have holdmem : s.get ⟨i, hi2⟩ ∈ bech32_charset := by
    rw [← hgetv]
    exact List.get_mem _ _ _
  -- index of the replacement symbol
  obtain ⟨v2, hv2eq⟩ : ∃ v2, charsetIndex? c2 = some v2 :=
    Option.isSome_iff_exists.mp (charset_index_isSome c2 hc2)
  obtain ⟨hv2lt, hv2bound, hv2get⟩ := charsetIndex?_spec _ _ hv2eq
  have hvne : v2 ≠ data.get ⟨i - (pos + 1), hklt⟩ := by
    intro hcon
    apply hdiff
    rw [← hv2get, ← hgetv]
    subst hcon
    rfl
  -- preprocessing of the corrupted string
  have hprint2 : ((s.set i c2).any (fun x => x.toNat < 33 || 126 < x.toNat)) = false := by
    rw [List.any_eq_false] at hprint ⊢
    intro x hx
    rcases List.mem_or_eq_of_mem_set hx with hm | rfl
    · exact hprint x hm
    · obtain ⟨h33, h126⟩ := charset_printable x hc2
      simp
      omega
  have hstrip2 : pyStripChars (s.set i c2) = s.set i c2 :=
    pyStripChars_set s hstrip i hi2 c2 (charset_no_ws c2 hc2)
  have hlower2 : (s.set i c2).map Char.toLower = s.set i c2 := by
    rw [List.map_set, hlower, charset_lower c2 hc2]
  -- the last "1" is unchanged
  have hfind2 : ((s.set i c2).reverse.findIdx? (fun c => c == '1')) = some j := by
    rw [reverse_set s i c2 hi2]
    rw [findIdx?_set_eq (fun c => c == '1') s.reverse (s.length - 1 - i) c2 ?_ ?_]
    · exact hfind
    · intro h
      have : s.reverse.get ⟨s.length - 1 - i, h⟩ = s.get ⟨i, hi2⟩ := by
        show s.reverse[s.length - 1 - i] = s[i]
        rw [List.getElem_reverse]
        congr 1
        omega
      rw [this]
      exact charset_no_one _ holdmem
    · exact charset_no_one c2 hc2
  -- the corrupted data part and its charset image
  have hdrop2 : (s.set i c2).drop (pos + 1) = (s.drop (pos + 1)).set (i - (pos + 1)) c2 := by
    rw [List.drop_set, if_neg (by omega)]
  have hmc2 : mapCharset ((s.drop (pos + 1)).set (i - (pos + 1)) c2) =
      some (data.set (i - (pos + 1)) v2) :=
    mapCharset_set _ _ hmc _ _ _ hv2eq
  -- the polymod check now fails
  have hdata_split : data.take (i - (pos + 1)) ++
      data.get ⟨i - (pos + 1), hklt⟩ :: data.drop (i - (pos + 1) + 1) = data := by
    show data.take (i - (pos + 1)) ++ data[i - (pos + 1)] :: data.drop (i - (pos + 1) + 1) = data
    rw [List.getElem_cons_drop, List.take_append_drop]
  have hset_split : data.set (i - (pos + 1)) v2 =
      data.take (i - (pos + 1)) ++ v2 :: data.drop (i - (pos + 1) + 1) := by
    rw [List.set_eq_take_append_cons_drop, if_pos hklt]
  have hdatalt := mapCharset_all_lt _ _ hmc
  have h32_30 : (32 : ℕ) ≤ 2 ^ 30 := by norm_num
  have hpoly2 : bech32_polymod
      (bech32_hrp_expand (s.take pos) ++ data.set (i - (pos + 1)) v2) ≠ 1 := by
    rw [hset_split, ← List.append_assoc]
    have hchange := bech32_polymod_change
      (bech32_hrp_expand (s.take pos) ++ data.take (i - (pos + 1)))
      (data.drop (i - (pos + 1) + 1)) v2 (data.get ⟨i - (pos + 1), hklt⟩)
      ?_ ?_ ?_ ?_ hvne
    · intro hcon
      apply hchange
      rw [hcon]
      rw [show (bech32_hrp_expand (s.take pos) ++ data.take (i - (pos + 1))) ++
          data.get ⟨i - (pos + 1), hklt⟩ :: data.drop (i - (pos + 1) + 1) =
          bech32_hrp_expand (s.take pos) ++ data from ?_]
      · exact hpoly.symm
      · rw [List.append_assoc, hdata_split]
    · intro u hu
      rcases List.mem_append.mp hu with h1 | h2
      · exact hrp_expand_lt _ u h1
      · exact lt_of_lt_of_le (hdatalt u (List.mem_of_mem_take h2)) h32_30
    · intro u hu
      exact lt_of_lt_of_le (hdatalt u (List.mem_of_mem_drop hu)) h32_30
    · exact lt_of_lt_of_le hv2lt h32_30
    · exact lt_of_lt_of_le (hdatalt _ (List.get_mem _ _ _)) h32_30
  -- assemble the failing decode of the corrupted string
  have hmain : bech32_decode (s.set i c2) = ("", []) := by
    simp only [bech32_decode, hstrip2, hlower2, hprint2, Bool.false_eq_true, if_false,
      ne_eq, not_true_eq_false, false_and, hfind2, List.length_set]
    rw [← hposdef]
    rw [if_neg (by omega)]
    rw [take_set_of_le s i pos c2 (by omega), hdrop2, hmc2]
    simp only
    rw [if_neg hpoly2]
  refine ⟨by rw [hmain], data.set (i - (pos + 1)) v2, ?_, ?_⟩
  · rw [hhrplen, hdrop2]
    exact hmc2
  · have hdatahrp : hrp.data = s.take pos := congrArg String.data hhrp
    rw [hdatahrp]
    exact hpoly2

set_option maxRecDepth 100000 in
/-- Witness for C8: the all-zero npub decodes (prefix "npub"), and changing
its final checksum character from 'e' to 'q' makes the decode fail. -/
theorem bech32_tail_corruption_breaks_decode_witness :
    (bech32_decode npubZero.data).1 = "npub" ∧
    (bech32_decode (npubZero.data.set 62 'q')).1 = "" :=
  ⟨by decide,
   (bech32_tail_corruption_breaks_decode npubZero.data "npub" (List.replicate 52 0)
     (by decide) (by decide) (by decide) (by decide) 62 (by decide) (by decide)
     'q' (by decide) (by decide)).1⟩

end Nip05Gate
